import Mathlib

/-!
# particle-life-go: the force-update core of `main.go`

A shallow embedding of the simulation core of `main.go` and theorems about it.

Modelling conventions.

* `float64` values are taken in a linearly ordered field `F` with exact
  arithmetic (for instance the real numbers): rounding, infinities and NaN are
  not modelled.  `math.Pow(d, 2)` is `d ^ 2`; `math.Sqrt` is passed to the
  functions that use it as a function `sqrt : F → F`, and a theorem that needs
  a property of the square root takes `IsSqrt sqrt` as a hypothesis.
* A Go slice is a window into a backing array.  All particles live in one
  memory, a map from addresses to particles; a `ParticleGroup` is a slice
  header (address of its first particle, length).  Two groups may therefore
  be the same storage, as in the self pairs of `ApplyInteractivity`.
* A function that mutates particles through a slice takes the memory and
  returns the new memory; `none` is Go's run-time panic "index out of range".
* Where rounding decides a property, the same code is also given in
  floating-point arithmetic: the definitions named `...Rounded` follow every
  operation by a rounding `rnd`, and `round64` is the rounding of `float64`
  (to nearest, ties to even, with subnormal numbers; overflow to infinity is
  not modelled).  With `rnd = id` they are the definitions in exact arithmetic.
-/

namespace ParticleLife

/-- Number of particle groups, `const MAX_GROUPS = 3`. -/
abbrev MAX_GROUPS : Nat := 3

/-- The colour type `rl.Color` of the rendering library: four bytes. -/
structure Color where
  R : UInt8
  G : UInt8
  B : UInt8
  A : UInt8
  deriving DecidableEq, Repr

/-- The record `Config`. -/
structure Config (F : Type) where
  winWidth : Int
  winHeight : Int
  winTitle : String
  fps : Int
  background : Color
  particleRadius : F
  particlesPerGroup : Int
  particleVelocityFactor : F
  particleActionDistance : F

/-- The record `Position`. -/
structure Position (F : Type) where
  X : F
  Y : F
  deriving DecidableEq

/-- The record `Particle`. -/
structure Particle (F : Type) where
  color : Color
  position : Position F
  vx : F
  vy : F
  deriving DecidableEq

/-- The record `ParticleDistance`. -/
structure ParticleDistance (F : Type) where
  xDelta : F
  yDelta : F
  displacement : F
  deriving DecidableEq

/-- What `math.Sqrt` computes on a non-negative argument: the non-negative
square root. -/
def IsSqrt {F : Type} [LinearOrderedField F] (sqrt : F → F) : Prop :=
  ∀ x : F, 0 ≤ x → 0 ≤ sqrt x ∧ sqrt x * sqrt x = x

/-- The function `ParticleDistanceCalculate(one, two)`. -/
def ParticleDistanceCalculate {F : Type} [LinearOrderedField F] (sqrt : F → F)
    (one two : Particle F) : ParticleDistance F :=
  let dx := one.position.X - two.position.X
  let dy := one.position.Y - two.position.Y
  let displacement := sqrt (dx ^ 2 + dy ^ 2)
  { xDelta := dx, yDelta := dy, displacement := displacement }

/-- A slice header `[]Particle`: the address of the first particle and the
length. -/
structure ParticleGroup where
  ptr : Nat
  len : Nat
  deriving DecidableEq, Repr

/-- The particle store: the particle at each address. -/
abbrev Memory (F : Type) := Nat → Particle F

/-- The array type `[MAX_GROUPS]ParticleGroup`. -/
abbrev ParticleGroups := Fin MAX_GROUPS → ParticleGroup

/-- The array type `[MAX_GROUPS][MAX_GROUPS]float64`. -/
abbrev InteractivityMatrix (F : Type) := Fin MAX_GROUPS → Fin MAX_GROUPS → F

/-- The address of `g[i]`, or `none` when `i` is out of range. -/
def ParticleGroup.index (g : ParticleGroup) (i : Nat) : Option Nat :=
  if i < g.len then some (g.ptr + i) else none

/-- A counting loop `for i := start; i < start + count; i++ { body }` over a
state, stopping at the first panic. -/
def forLoop {σ : Type} (body : Nat → σ → Option σ) : Nat → Nat → σ → Option σ
  | _, 0, s => some s
  | i, n + 1, s => (body i s).bind (forLoop body (i + 1) n)

/-- Lines 106-111 of `ParticleGroupsUpdate`: the force accumulators `(fx, fy)`
after source particle `a` has been compared with target particle `b`. -/
def accumulate {F : Type} [LinearOrderedField F] (sqrt : F → F) (config : Config F)
    (gravity : F) (a b : Particle F) (f : F × F) : F × F :=
  let distance := ParticleDistanceCalculate sqrt a b
  if 0 < distance.displacement ∧ distance.displacement < config.particleActionDistance then
    let force := gravity / distance.displacement
    (f.1 + force * distance.xDelta, f.2 + force * distance.yDelta)
  else f

/-- Lines 113-125 of `ParticleGroupsUpdate`: velocity update, position update
and boundary bounce of particle `a` under the accumulated force `(fx, fy)`. -/
def advance {F : Type} [LinearOrderedField F] (config : Config F) (f : F × F)
    (a : Particle F) : Particle F :=
  let a := { a with vx := (a.vx + f.1) * config.particleVelocityFactor }
  let a := { a with vy := (a.vy * f.2) * config.particleVelocityFactor }
  let a := { a with position := { a.position with X := a.position.X + a.vx } }
  let a := { a with position := { a.position with Y := a.position.Y + a.vy } }
  let a := if a.position.X < 0 ∨ a.position.X > (config.winWidth : F) then
    { a with vx := a.vx * (-1) } else a
  let a := if a.position.Y < 0 ∨ a.position.Y > (config.winHeight : F) then
    { a with vy := a.vy * (-1) } else a
  a

/-- The body of the inner loop of `ParticleGroupsUpdate` (lines 103-125) for
source index `i` and target index `j`.  The state is the memory together with
the accumulators `fx` and `fy`. -/
def subStep {F : Type} [LinearOrderedField F] (sqrt : F → F) (config : Config F)
    (gravity : F) (gOne gTwo : ParticleGroup) (i j : Nat)
    (s : Memory F × F × F) : Option (Memory F × F × F) :=
  (gOne.index i).bind fun pa =>
  (gTwo.index j).bind fun pb =>
    let f := accumulate sqrt config gravity (s.1 pa) (s.1 pb) s.2
    some (Function.update s.1 pa (advance config f (s.1 pa)), f)

/-- The body of the outer loop of `ParticleGroupsUpdate` (lines 99-126) for
source index `i`: the accumulators start at zero and the inner loop runs over
`j = 0, ..., max - 1`. -/
def sourceStep {F : Type} [LinearOrderedField F] (sqrt : F → F) (config : Config F)
    (gravity : F) (gOne gTwo : ParticleGroup) (max : Nat) (i : Nat)
    (mem : Memory F) : Option (Memory F) :=
  (forLoop (subStep sqrt config gravity gOne gTwo i) 0 max (mem, 0, 0)).map Prod.fst

/-- The function `ParticleGroupsUpdate(gOne, gTwo, gravity, config)`, run on
the memory `mem`. -/
def ParticleGroupsUpdate {F : Type} [LinearOrderedField F] (sqrt : F → F)
    (gOne gTwo : ParticleGroup) (gravity : F) (config : Config F)
    (mem : Memory F) : Option (Memory F) :=
  let max := gOne.len
  forLoop (sourceStep sqrt config gravity gOne gTwo max) 0 max mem

/-- The method `ApplyInteractivity(interactivity, config)` of `ParticleGroups`,
run on the memory `mem`. -/
def ApplyInteractivity {F : Type} [LinearOrderedField F] (sqrt : F → F)
    (groups : ParticleGroups) (interactivity : InteractivityMatrix F)
    (config : Config F) (mem : Memory F) : Option (Memory F) :=
  forLoop (fun i mem =>
    forLoop (fun j mem =>
      if h : i < MAX_GROUPS ∧ j < MAX_GROUPS then
        ParticleGroupsUpdate sqrt (groups ⟨i, h.1⟩) (groups ⟨j, h.2⟩)
          (interactivity ⟨i, h.1⟩ ⟨j, h.2⟩) config mem
      else none) 0 MAX_GROUPS mem) 0 MAX_GROUPS mem

/-- The configuration built in `main`. -/
def mainConfig (F : Type) [LinearOrderedField F] : Config F :=
  { winWidth := 800
    winHeight := 450
    winTitle := "Game"
    fps := 60
    background := ⟨0, 0, 0, 255⟩
    particleRadius := 2
    particlesPerGroup := 300
    particleVelocityFactor := 1 / 100
    particleActionDistance := 75 }

/-- The colour `rl.Red`. -/
def Red : Color := ⟨230, 41, 55, 255⟩

/-- The colour `rl.Yellow`. -/
def Yellow : Color := ⟨253, 249, 0, 255⟩

/-- The colour `rl.Blue`. -/
def Blue : Color := ⟨0, 121, 241, 255⟩

/-- A particle of the given colour at `(x, y)` with velocity `(vx, vy)`. -/
def particleAt {F : Type} (color : Color) (x y vx vy : F) : Particle F :=
  { color := color, position := { X := x, Y := y }, vx := vx, vy := vy }

/-- A memory holding the particles `ps` at the addresses `0, 1, ...` and `b`
at every address after them. -/
def memoryOf {F : Type} (ps : List (Particle F)) (b : Particle F) : Memory F :=
  fun n => ps.getD n b

/-- The configuration of `main` with the velocity factor and the action
distance replaced. -/
def configWith (F : Type) [LinearOrderedField F] (k D : F) : Config F :=
  { mainConfig F with particleVelocityFactor := k, particleActionDistance := D }

/-- The particles of the group `g`, read from the memory: `g[0], ..., g[len-1]`. -/
def ParticleGroup.particles {F : Type} (g : ParticleGroup) (mem : Memory F) :
    List (Particle F) :=
  (List.range g.len).map fun i => mem (g.ptr + i)

/-- A division that traps: `none` when the divisor is not strictly positive. -/
def checkedDiv {F : Type} [LinearOrderedField F] (x y : F) : Option F :=
  if 0 < y then some (x / y) else none

/-- Lines 106-111 of `ParticleGroupsUpdate` with the division
`gravity / displacement` replaced by the division that traps. -/
def accumulateChecked {F : Type} [LinearOrderedField F] (sqrt : F → F) (config : Config F)
    (gravity : F) (a b : Particle F) (f : F × F) : Option (F × F) :=
  let distance := ParticleDistanceCalculate sqrt a b
  if 0 < distance.displacement ∧ distance.displacement < config.particleActionDistance then
    (checkedDiv gravity distance.displacement).map fun force =>
      (f.1 + force * distance.xDelta, f.2 + force * distance.yDelta)
  else some f

/-- The body of the inner loop of `ParticleGroupsUpdate` (lines 103-125) over a
given comparison `acc` (lines 106-111, which may trap) and a given update
`adv` (lines 113-125). -/
def subStepWith {F : Type} (acc : Particle F → Particle F → F × F → Option (F × F))
    (adv : F × F → Particle F → Particle F) (gOne gTwo : ParticleGroup) (i j : Nat)
    (s : Memory F × F × F) : Option (Memory F × F × F) :=
  (gOne.index i).bind fun pa =>
  (gTwo.index j).bind fun pb =>
  (acc (s.1 pa) (s.1 pb) s.2).bind fun f =>
    some (Function.update s.1 pa (adv f (s.1 pa)), f)

/-- The body of the outer loop of `ParticleGroupsUpdate` (lines 99-126) over a
given comparison and a given update. -/
def sourceStepWith {F : Type} [Zero F]
    (acc : Particle F → Particle F → F × F → Option (F × F))
    (adv : F × F → Particle F → Particle F) (gOne gTwo : ParticleGroup) (max : Nat) (i : Nat)
    (mem : Memory F) : Option (Memory F) :=
  (forLoop (subStepWith acc adv gOne gTwo i) 0 max (mem, 0, 0)).map Prod.fst

/-- The loops of `ParticleGroupsUpdate` (lines 96-127) over a given comparison
and a given update.  `none` is a run-time error: an index out of range, or a
trap of the comparison. -/
def passWith {F : Type} [Zero F]
    (acc : Particle F → Particle F → F × F → Option (F × F))
    (adv : F × F → Particle F → Particle F) (gOne gTwo : ParticleGroup)
    (mem : Memory F) : Option (Memory F) :=
  let max := gOne.len
  forLoop (sourceStepWith acc adv gOne gTwo max) 0 max mem

/-- The function `ParticleGroupsUpdate` with the division that traps. -/
def ParticleGroupsUpdateChecked {F : Type} [LinearOrderedField F] (sqrt : F → F)
    (gOne gTwo : ParticleGroup) (gravity : F) (config : Config F)
    (mem : Memory F) : Option (Memory F) :=
  passWith (accumulateChecked sqrt config gravity) (advance config) gOne gTwo mem

/-- The method `ApplyInteractivity` with the division that traps. -/
def ApplyInteractivityChecked {F : Type} [LinearOrderedField F] (sqrt : F → F)
    (groups : ParticleGroups) (interactivity : InteractivityMatrix F)
    (config : Config F) (mem : Memory F) : Option (Memory F) :=
  forLoop (fun i mem =>
    forLoop (fun j mem =>
      if h : i < MAX_GROUPS ∧ j < MAX_GROUPS then
        ParticleGroupsUpdateChecked sqrt (groups ⟨i, h.1⟩) (groups ⟨j, h.2⟩)
          (interactivity ⟨i, h.1⟩ ⟨j, h.2⟩) config mem
      else none) 0 MAX_GROUPS mem) 0 MAX_GROUPS mem

/-- Rounding to an integer, to the nearest one, a tie going to the even one. -/
def roundHalfEven {F : Type} [LinearOrderedField F] [FloorRing F] (y : F) : Int :=
  if y - ⌊y⌋ < 1 / 2 then ⌊y⌋
  else if 1 / 2 < y - ⌊y⌋ then ⌊y⌋ + 1
  else if ⌊y⌋ % 2 = 0 then ⌊y⌋ else ⌊y⌋ + 1

/-- Rounding of a number to `float64` (binary64): 53 significant bits, least
exponent `-1022` with subnormal numbers below it, to the nearest value, a tie
going to the even one.  A result beyond the largest `float64` stays finite:
overflow to infinity is not modelled. -/
def round64 {F : Type} [LinearOrderedField F] [FloorRing F] (x : F) : F :=
  if x = 0 then 0
  else
    let e : Int := max (Int.log 2 |x|) (-1022)
    let q : F := 2 ^ (e - 52)
    (roundHalfEven (x / q) : F) * q

/-- What the theorems use of a rounding `rnd`: it commutes with negation and
keeps a non-negative number non-negative. -/
def IsRounding {F : Type} [LinearOrderedField F] (rnd : F → F) : Prop :=
  (∀ x : F, rnd (-x) = -rnd x) ∧ ∀ x : F, 0 ≤ x → 0 ≤ rnd x

/-- The function `ParticleDistanceCalculate(one, two)` in floating-point
arithmetic: every operation is followed by the rounding `rnd`; `math.Pow(d, 2)`
is the rounded square and `math.Sqrt` the rounded square root. -/
def ParticleDistanceCalculateRounded {F : Type} [LinearOrderedField F] (rnd sqrt : F → F)
    (one two : Particle F) : ParticleDistance F :=
  let dx := rnd (one.position.X - two.position.X)
  let dy := rnd (one.position.Y - two.position.Y)
  let displacement := rnd (sqrt (rnd (rnd (dx ^ 2) + rnd (dy ^ 2))))
  { xDelta := dx, yDelta := dy, displacement := displacement }

/-- Lines 106-111 of `ParticleGroupsUpdate` in floating-point arithmetic with
the rounding `rnd`. -/
def accumulateRounded {F : Type} [LinearOrderedField F] (rnd sqrt : F → F) (config : Config F)
    (gravity : F) (a b : Particle F) (f : F × F) : F × F :=
  let distance := ParticleDistanceCalculateRounded rnd sqrt a b
  if 0 < distance.displacement ∧ distance.displacement < config.particleActionDistance then
    let force := rnd (gravity / distance.displacement)
    (rnd (f.1 + rnd (force * distance.xDelta)), rnd (f.2 + rnd (force * distance.yDelta)))
  else f

/-- Lines 113-125 of `ParticleGroupsUpdate` in floating-point arithmetic with
the rounding `rnd`.  The multiplication by `-1.0` only changes the sign and is
exact, and so is the conversion of the `int32` width and height. -/
def advanceRounded {F : Type} [LinearOrderedField F] (rnd : F → F) (config : Config F)
    (f : F × F) (a : Particle F) : Particle F :=
  let a := { a with vx := rnd (rnd (a.vx + f.1) * config.particleVelocityFactor) }
  let a := { a with vy := rnd (rnd (a.vy * f.2) * config.particleVelocityFactor) }
  let a := { a with position := { a.position with X := rnd (a.position.X + a.vx) } }
  let a := { a with position := { a.position with Y := rnd (a.position.Y + a.vy) } }
  let a := if a.position.X < 0 ∨ a.position.X > (config.winWidth : F) then
    { a with vx := a.vx * (-1) } else a
  let a := if a.position.Y < 0 ∨ a.position.Y > (config.winHeight : F) then
    { a with vy := a.vy * (-1) } else a
  a

/-- The function `ParticleGroupsUpdate` in floating-point arithmetic with the
rounding `rnd`. -/
def ParticleGroupsUpdateRounded {F : Type} [LinearOrderedField F] (rnd sqrt : F → F)
    (gOne gTwo : ParticleGroup) (gravity : F) (config : Config F)
    (mem : Memory F) : Option (Memory F) :=
  passWith (fun a b f => some (accumulateRounded rnd sqrt config gravity a b f))
    (advanceRounded rnd config) gOne gTwo mem

/-- The x-velocity after the velocity update of a sub-step under zero force,
before the bounce: `(vx + 0) * particleVelocityFactor`, rounded. -/
def damp {F : Type} [LinearOrderedField F] (rnd : F → F) (config : Config F) (v : F) : F :=
  rnd (rnd (v + 0) * config.particleVelocityFactor)

/-- The number of sub-steps, among the next `n` sub-steps of particle `a`
under zero force, that reverse the x-velocity: those that end at a
`position.X` below `0` or above the width. -/
def reversals {F : Type} [LinearOrderedField F] (rnd : F → F) (config : Config F) :
    Nat → Particle F → Nat
  | 0, _ => 0
  | n + 1, a =>
    (if (advanceRounded rnd config (0, 0) a).position.X < 0 ∨
        (advanceRounded rnd config (0, 0) a).position.X > (config.winWidth : F)
      then 1 else 0) + reversals rnd config n (advanceRounded rnd config (0, 0) a)

/-- The random source of `math/rand`: the raw values it will produce and how
many of them have been drawn. -/
structure Rand where
  raw : Nat → Nat
  drawn : Nat

/-- The library function `rand.Intn(n)`: a value in `[0, n)` drawn from the
source; it panics when `n ≤ 0`. -/
def Rand.Intn (n : Int) (r : Rand) : Option (Int × Rand) :=
  if 0 < n then some ((r.raw r.drawn : Int) % n, { r with drawn := r.drawn + 1 })
  else none

/-- The function `RandomPosition(config)`. -/
def RandomPosition {F : Type} [LinearOrderedField F] (config : Config F) (r : Rand) :
    Option (Position F × Rand) :=
  (Rand.Intn config.winWidth r).bind fun x =>
  (Rand.Intn config.winHeight x.2).bind fun y =>
    some ({ X := (x.1 : F), Y := (y.1 : F) }, y.2)

/-- The function `NewParticle(config, color)`. -/
def NewParticle {F : Type} [LinearOrderedField F] (config : Config F) (color : Color)
    (r : Rand) : Option (Particle F × Rand) :=
  (RandomPosition config r).map fun pos =>
    ({ color := color, position := pos.1, vx := 0, vy := 0 }, pos.2)

/-- The function `NewParticleGroup(config, color)`: the particles of the slice
it returns, in order.  The loop `for i := 0; i < particlesPerGroup; i++` runs
`particlesPerGroup` times, and not at all when that count is negative. -/
def NewParticleGroup {F : Type} [LinearOrderedField F] (config : Config F) (color : Color)
    (r : Rand) : Option (List (Particle F) × Rand) :=
  forLoop (fun _ s =>
    (NewParticle config color s.2).map fun particle => (s.1 ++ [particle.1], particle.2))
    0 config.particlesPerGroup.toNat ([], r)

/-- The integral part of `x`: the fraction is discarded. -/
def discardFraction {F : Type} [LinearOrderedField F] [FloorRing F] (x : F) : Int :=
  if 0 ≤ x then ⌊x⌋ else ⌈x⌉

/-- The conversion `int32(x)` of a `float64`: the integral part of `x` when it
fits in 32 bits.  When it does not fit, the language leaves the result to the
implementation, here `other x`. -/
def toInt32 {F : Type} [LinearOrderedField F] [FloorRing F] (other : F → Int) (x : F) : Int :=
  if -2147483648 ≤ discardFraction x ∧ discardFraction x ≤ 2147483647 then discardFraction x
  else other x

/-- The method `AsInt()` of `Position`. -/
def Position.AsInt {F : Type} [LinearOrderedField F] [FloorRing F] (other : F → Int)
    (p : Position F) : Int × Int :=
  (toInt32 other p.X, toInt32 other p.Y)

/-! ## Loops and sub-steps -/

section Lemmas

variable {F : Type} [LinearOrderedField F]

theorem forLoop_zero {σ : Type} (body : Nat → σ → Option σ) (i : Nat) (s : σ) :
    forLoop body i 0 s = some s := rfl

theorem forLoop_succ {σ : Type} (body : Nat → σ → Option σ) (i n : Nat) (s : σ) :
    forLoop body i (n + 1) s = (body i s).bind (forLoop body (i + 1) n) := rfl

/-- A loop of `n + 1` rounds is a loop of `n` rounds followed by the last round. -/
theorem forLoop_succ_last {σ : Type} (body : Nat → σ → Option σ) (n : Nat) :
    ∀ (i : Nat) (s : σ),
      forLoop body i (n + 1) s = (forLoop body i n s).bind (body (i + n)) := by
  induction n with
  | zero =>
    intro i s
    simp [forLoop]
  | succ n ih =>
    intro i s
    rw [forLoop_succ, forLoop_succ body i n]
    cases h : body i s with
    | none => simp
    | some t =>
      simp only [Option.some_bind]
      rw [ih (i + 1) t]
      have : i + 1 + n = i + (n + 1) := by omega
      rw [this]

theorem index_of_lt (g : ParticleGroup) {i : Nat} (h : i < g.len) :
    g.index i = some (g.ptr + i) := by
  simp [ParticleGroup.index, h]

theorem index_of_ge (g : ParticleGroup) {i : Nat} (h : g.len ≤ i) :
    g.index i = none := by
  simp [ParticleGroup.index, Nat.not_lt.mpr h]

/-- A sub-step with both indices in range: the source particle is advanced
under the newly accumulated force. -/
theorem subStep_of_lt (sqrt : F → F) (config : Config F) (gravity : F)
    (gOne gTwo : ParticleGroup) {i j : Nat} (hi : i < gOne.len) (hj : j < gTwo.len)
    (s : Memory F × F × F) :
    subStep sqrt config gravity gOne gTwo i j s =
      some (Function.update s.1 (gOne.ptr + i)
        (advance config
          (accumulate sqrt config gravity (s.1 (gOne.ptr + i)) (s.1 (gTwo.ptr + j)) s.2)
          (s.1 (gOne.ptr + i))),
        accumulate sqrt config gravity (s.1 (gOne.ptr + i)) (s.1 (gTwo.ptr + j)) s.2) := by
  simp [subStep, index_of_lt, hi, hj]

/-- A sub-step whose target index is out of range panics. -/
theorem subStep_of_ge (sqrt : F → F) (config : Config F) (gravity : F)
    (gOne gTwo : ParticleGroup) (i : Nat) {j : Nat} (hj : gTwo.len ≤ j)
    (s : Memory F × F × F) :
    subStep sqrt config gravity gOne gTwo i j s = none := by
  unfold subStep
  rw [index_of_ge gTwo hj]
  cases gOne.index i <;> simp

end Lemmas

/-! ## The pass on one source particle and one target particle -/

section Single

variable {F : Type} [LinearOrderedField F]

/-- With a source group of one particle, the pass is one sub-step. -/
theorem ParticleGroupsUpdate_single (sqrt : F → F) (config : Config F) (gravity : F)
    (p q n : Nat) (hn : 0 < n) (mem : Memory F) :
    ParticleGroupsUpdate sqrt ⟨p, 1⟩ ⟨q, n⟩ gravity config mem =
      some (Function.update mem p
        (advance config (accumulate sqrt config gravity (mem p) (mem q) (0, 0)) (mem p))) := by
  have h := subStep_of_lt sqrt config gravity ⟨p, 1⟩ ⟨q, n⟩ (i := 0) (j := 0)
    (by simp) (by simpa using hn) (mem, 0, 0)
  simp only [Nat.add_zero] at h
  simp only [ParticleGroupsUpdate, sourceStep, forLoop, h, Option.some_bind, Option.map_some',
    Option.bind_some]

/-- Claim C1. For a source group of one particle `a = mem p` and a target group
of one particle `b = mem q`, the pass writes exactly this particle at the
source address and nothing else: with `dx = a.x - b.x`, `dy = a.y - b.y`,
`d = sqrt (dx^2 + dy^2)`, `f = g / d` if `0 < d < D` and `0` otherwise,
`vx1 = (vx + f * dx) * k`, `vy1 = (vy * (f * dy)) * k`, the new position is
`(x + vx1, y + vy1)` (not clamped), the new `vx` is `-vx1` if `x + vx1` is
below `0` or above the width and `vx1` otherwise, and likewise for `vy` and
the height. -/
theorem C1_single_pair_state (sqrt : F → F) (config : Config F) (g : F)
    (p q : Nat) (mem : Memory F) :
    let a := mem p
    let b := mem q
    let dx := a.position.X - b.position.X
    let dy := a.position.Y - b.position.Y
    let d := sqrt (dx ^ 2 + dy ^ 2)
    let f := if 0 < d ∧ d < config.particleActionDistance then g / d else 0
    let vx1 := (a.vx + f * dx) * config.particleVelocityFactor
    let vy1 := (a.vy * (f * dy)) * config.particleVelocityFactor
    ParticleGroupsUpdate sqrt ⟨p, 1⟩ ⟨q, 1⟩ g config mem =
      some (Function.update mem p
        { color := a.color
          position := { X := a.position.X + vx1, Y := a.position.Y + vy1 }
          vx := if a.position.X + vx1 < 0 ∨ a.position.X + vx1 > (config.winWidth : F)
            then -vx1 else vx1
          vy := if a.position.Y + vy1 < 0 ∨ a.position.Y + vy1 > (config.winHeight : F)
            then -vy1 else vy1 }) := by
  intro a b dx dy d f vx1 vy1
  rw [ParticleGroupsUpdate_single sqrt config g p q 1 (by decide) mem]
  have hacc : accumulate sqrt config g (mem p) (mem q) (0, 0) = (f * dx, f * dy) := by
    by_cases h : 0 < d ∧ d < config.particleActionDistance
    · have hf : f = g / d := if_pos h
      rw [hf]
      simp only [accumulate, ParticleDistanceCalculate]
      rw [if_pos h, zero_add, zero_add]
    · have hf : f = 0 := if_neg h
      rw [hf]
      simp only [accumulate, ParticleDistanceCalculate]
      rw [if_neg h, zero_mul, zero_mul]
  rw [hacc]
  congr 2
  simp only [advance, mul_neg_one]
  split_ifs <;> rfl

end Single

/-! ## The square root -/

section Sqrt

variable {F : Type} [LinearOrderedField F]

theorem IsSqrt.nonneg {sqrt : F → F} (h : IsSqrt sqrt) {x : F} (hx : 0 ≤ x) :
    0 ≤ sqrt x := (h x hx).1

theorem IsSqrt.mul_self {sqrt : F → F} (h : IsSqrt sqrt) {x : F} (hx : 0 ≤ x) :
    sqrt x * sqrt x = x := (h x hx).2

/-- The square root of the square of a non-negative number is that number. -/
theorem IsSqrt.sqrt_mul_self {sqrt : F → F} (h : IsSqrt sqrt) {y : F} (hy : 0 ≤ y) :
    sqrt (y * y) = y := by
  have h0 : 0 ≤ y * y := mul_nonneg hy hy
  exact (mul_self_inj (h.nonneg h0) hy).mp (h.mul_self h0)

/-- The square root vanishes exactly at zero. -/
theorem IsSqrt.eq_zero_iff {sqrt : F → F} (h : IsSqrt sqrt) {x : F} (hx : 0 ≤ x) :
    sqrt x = 0 ↔ x = 0 := by
  constructor
  · intro h0
    have := h.mul_self hx
    rw [h0, mul_zero] at this
    exact this.symm
  · intro h0
    subst h0
    have := h.sqrt_mul_self (le_refl (0 : F))
    rwa [mul_zero] at this

/-- The real square root is a square root. -/
theorem isSqrt_real : IsSqrt Real.sqrt :=
  fun x hx => ⟨Real.sqrt_nonneg x, Real.mul_self_sqrt hx⟩

end Sqrt

/-! ## The scenario of two particles ten units apart -/

section Scenario

variable {F : Type} [LinearOrderedField F]

/-- Claim C2. Source particle at `(0, 0)` with zero velocity, target particle
at `(10, 0)`, gravity `1`, action distance `1000`, velocity factor `1`, any
arena: after one pass the source particle has `position.X = -1` and
`vx = 1`. -/
theorem C2_scenario_ten_apart (sqrt : F → F) (hsqrt : IsSqrt sqrt) (config : Config F)
    (hk : config.particleVelocityFactor = 1) (hD : config.particleActionDistance = 1000)
    (p q : Nat) (mem : Memory F)
    (hpos : (mem p).position = ⟨0, 0⟩) (hvx : (mem p).vx = 0) (_hvy : (mem p).vy = 0)
    (htgt : (mem q).position = ⟨10, 0⟩) :
    ∃ mem' : Memory F,
      ParticleGroupsUpdate sqrt ⟨p, 1⟩ ⟨q, 1⟩ 1 config mem = some mem' ∧
      (mem' p).position.X = -1 ∧ (mem' p).vx = 1 := by
  have hd : sqrt (((0 : F) - 10) ^ 2 + (0 - 0) ^ 2) = 10 := by
    have : ((0 : F) - 10) ^ 2 + (0 - 0) ^ 2 = 10 * 10 := by norm_num
    rw [this]
    exact hsqrt.sqrt_mul_self (by norm_num)
  have hacc : accumulate sqrt config 1 (mem p) (mem q) (0, 0) = (-1, 0) := by
    simp only [accumulate, ParticleDistanceCalculate, hpos, htgt, hd, hD]
    norm_num
  refine ⟨_, ParticleGroupsUpdate_single sqrt config 1 p q 1 (by decide) mem, ?_, ?_⟩
  · simp only [Function.update_same, hacc, advance, hpos, hvx, hk]
    split_ifs <;> norm_num
  · simp only [Function.update_same, hacc, advance, hpos, hvx, hk]
    norm_num

/-- Witness for C2 over the real numbers. -/
theorem C2_scenario_ten_apart_witness :
    ∃ mem' : Memory ℝ,
      ParticleGroupsUpdate Real.sqrt ⟨0, 1⟩ ⟨1, 1⟩ 1 (configWith ℝ 1 1000)
        (memoryOf [particleAt Red 0 0 0 0] (particleAt Yellow 10 0 0 0)) = some mem' ∧
      (mem' 0).position.X = -1 ∧ (mem' 0).vx = 1 :=
  C2_scenario_ten_apart Real.sqrt isSqrt_real (configWith ℝ 1 1000) rfl rfl 0 1
    (memoryOf [particleAt Red 0 0 0 0] (particleAt Yellow 10 0 0 0)) rfl rfl rfl rfl

end Scenario

/-! ## The simulation step -/

section Step

variable {F : Type} [LinearOrderedField F]

/-- Claim C3. `ApplyInteractivity` is the sequential composition of the nine
passes `ParticleGroupsUpdate (groups i) (groups j) (m i j)` in row-major order
`(0,0), (0,1), (0,2), (1,0), ..., (2,2)`, each pass running on the memory left
by the passes before it. -/
theorem C3_ApplyInteractivity_row_major (sqrt : F → F) (groups : ParticleGroups)
    (m : InteractivityMatrix F) (config : Config F) (mem : Memory F) :
    ApplyInteractivity sqrt groups m config mem =
      (((((((((ParticleGroupsUpdate sqrt (groups 0) (groups 0) (m 0 0) config mem).bind
        (ParticleGroupsUpdate sqrt (groups 0) (groups 1) (m 0 1) config)).bind
        (ParticleGroupsUpdate sqrt (groups 0) (groups 2) (m 0 2) config)).bind
        (ParticleGroupsUpdate sqrt (groups 1) (groups 0) (m 1 0) config)).bind
        (ParticleGroupsUpdate sqrt (groups 1) (groups 1) (m 1 1) config)).bind
        (ParticleGroupsUpdate sqrt (groups 1) (groups 2) (m 1 2) config)).bind
        (ParticleGroupsUpdate sqrt (groups 2) (groups 0) (m 2 0) config)).bind
        (ParticleGroupsUpdate sqrt (groups 2) (groups 1) (m 2 1) config)).bind
        (ParticleGroupsUpdate sqrt (groups 2) (groups 2) (m 2 2) config)) := by
  simp [ApplyInteractivity, forLoop, Option.bind_assoc]
  rfl

end Step

/-! ## Passes in which no force acts -/

section NoForce

variable {F : Type} [LinearOrderedField F]

/-- With a non-positive action distance the accumulators never change. -/
theorem accumulate_of_actionDistance_nonpos (sqrt : F → F) (config : Config F)
    (hD : config.particleActionDistance ≤ 0) (gravity : F) (a b : Particle F) (f : F × F) :
    accumulate sqrt config gravity a b f = f := by
  unfold accumulate
  apply if_neg
  rintro ⟨h1, h2⟩
  exact absurd (lt_of_lt_of_le (lt_trans h1 h2) hD) (lt_irrefl _)

/-- With gravity zero the accumulators never change. -/
theorem accumulate_of_gravity_zero (sqrt : F → F) (config : Config F)
    (a b : Particle F) (f : F × F) :
    accumulate sqrt config 0 a b f = f := by
  unfold accumulate
  simp only [zero_div, zero_mul, add_zero, Prod.mk.eta, ite_self]

/-- When the accumulators never change, `n` rounds of the inner loop advance
the source particle `n` times under zero force and leave the accumulators at
zero. -/
theorem innerLoop_noForce (sqrt : F → F) (config : Config F) (gravity : F)
    (hno : ∀ a b : Particle F, accumulate sqrt config gravity a b (0, 0) = (0, 0))
    (gOne gTwo : ParticleGroup) {i : Nat} (hi : i < gOne.len) (n : Nat) :
    ∀ (j : Nat) (mem : Memory F), j + n ≤ gTwo.len →
      forLoop (subStep sqrt config gravity gOne gTwo i) j n (mem, 0, 0) =
        some (Function.update mem (gOne.ptr + i)
          ((advance config (0, 0))^[n] (mem (gOne.ptr + i))), 0, 0) := by
  induction n with
  | zero =>
    intro j mem _
    simp [forLoop]
  | succ n ih =>
    intro j mem hj
    rw [forLoop_succ, subStep_of_lt sqrt config gravity gOne gTwo hi (by omega)]
    simp only [hno, Option.some_bind]
    rw [ih (j + 1) _ (by omega)]
    simp only [Function.update_same, Function.update_idem, Function.iterate_succ_apply]

/-- When the accumulators never change, the outer loop advances each source
particle it visits `gOne.len` times under zero force. -/
theorem outerLoop_noForce (sqrt : F → F) (config : Config F) (gravity : F)
    (hno : ∀ a b : Particle F, accumulate sqrt config gravity a b (0, 0) = (0, 0))
    (gOne gTwo : ParticleGroup) (hlen : gOne.len ≤ gTwo.len) (n : Nat) :
    ∀ (i : Nat) (mem : Memory F), i + n ≤ gOne.len →
      forLoop (sourceStep sqrt config gravity gOne gTwo gOne.len) i n mem =
        some (fun p => if gOne.ptr + i ≤ p ∧ p < gOne.ptr + i + n then
          (advance config (0, 0))^[gOne.len] (mem p) else mem p) := by
  induction n with
  | zero =>
    intro i mem _
    rw [forLoop_zero]
    congr 1
    funext p
    rw [if_neg (by omega)]
  | succ n ih =>
    intro i mem hi
    rw [forLoop_succ]
    have hstep : sourceStep sqrt config gravity gOne gTwo gOne.len i mem =
        some (Function.update mem (gOne.ptr + i)
          ((advance config (0, 0))^[gOne.len] (mem (gOne.ptr + i)))) := by
      unfold sourceStep
      rw [innerLoop_noForce sqrt config gravity hno gOne gTwo (by omega) gOne.len 0 mem
        (by omega)]
      rfl
    rw [hstep, Option.some_bind, ih (i + 1) _ (by omega)]
    congr 1
    funext p
    by_cases hp : p = gOne.ptr + i
    · subst hp
      rw [if_neg (by omega), if_pos (by omega), Function.update_same]
    · rw [Function.update_noteq hp]
      by_cases hq : gOne.ptr + (i + 1) ≤ p ∧ p < gOne.ptr + (i + 1) + n
      · rw [if_pos hq, if_pos (by omega)]
      · rw [if_neg hq, if_neg (by omega)]

/-- When the accumulators never change and the target group is at least as
long as the source group, the pass advances every source particle `gOne.len`
times under zero force, and changes nothing else. -/
theorem ParticleGroupsUpdate_noForce (sqrt : F → F) (config : Config F) (gravity : F)
    (hno : ∀ a b : Particle F, accumulate sqrt config gravity a b (0, 0) = (0, 0))
    (gOne gTwo : ParticleGroup) (hlen : gOne.len ≤ gTwo.len) (mem : Memory F) :
    ParticleGroupsUpdate sqrt gOne gTwo gravity config mem =
      some (fun p => if gOne.ptr ≤ p ∧ p < gOne.ptr + gOne.len then
        (advance config (0, 0))^[gOne.len] (mem p) else mem p) := by
  have h := outerLoop_noForce sqrt config gravity hno gOne gTwo hlen gOne.len 0 mem (by omega)
  simpa [ParticleGroupsUpdate] using h

/-- Claim C4. With `particleActionDistance ≤ 0` and groups of the same length,
the gravity term is never applied: a comparison leaves the accumulators as
they are, after any number of sub-steps of the inner loop `fx` and `fy` are
`0`, and the pass returns a source group that is the same for every gravity
value and every target group and target contents. -/
theorem C4_actionDistance_nonpos_no_force (sqrt : F → F) (config : Config F)
    (hD : config.particleActionDistance ≤ 0)
    (gOne gTwo gTwo' : ParticleGroup)
    (hlen : gTwo.len = gOne.len) (hlen' : gTwo'.len = gOne.len)
    (g g' : F) (mem mem' : Memory F)
    (hsrc : ∀ k, k < gOne.len → mem (gOne.ptr + k) = mem' (gOne.ptr + k)) :
    (∀ (a b : Particle F) (f : F × F), accumulate sqrt config g a b f = f) ∧
    (∀ (i n : Nat) (s : Memory F), i < gOne.len → n ≤ gOne.len →
      ∃ s' : Memory F,
        forLoop (subStep sqrt config g gOne gTwo i) 0 n (s, 0, 0) = some (s', 0, 0)) ∧
    ∃ r r' : Memory F,
      ParticleGroupsUpdate sqrt gOne gTwo g config mem = some r ∧
      ParticleGroupsUpdate sqrt gOne gTwo' g' config mem' = some r' ∧
      ∀ k, k < gOne.len → r (gOne.ptr + k) = r' (gOne.ptr + k) := by
  have hno : ∀ (γ : F) (a b : Particle F), accumulate sqrt config γ a b (0, 0) = (0, 0) :=
    fun γ a b => accumulate_of_actionDistance_nonpos sqrt config hD γ a b (0, 0)
  refine ⟨accumulate_of_actionDistance_nonpos sqrt config hD g, ?_, ?_⟩
  · intro i n s hi hn
    exact ⟨_, innerLoop_noForce sqrt config g (hno g) gOne gTwo hi n 0 s (by omega)⟩
  · refine ⟨_, _, ParticleGroupsUpdate_noForce sqrt config g (hno g) gOne gTwo (by omega) mem,
      ParticleGroupsUpdate_noForce sqrt config g' (hno g') gOne gTwo' (by omega) mem', ?_⟩
    intro k hk
    simp only [hsrc k hk]

/-- Witness for C4: action distance `0`, gravity `1` against gravity `-1`, the
target particle at `(10, 0)` against `(3, 4)`. -/
theorem C4_actionDistance_nonpos_no_force_witness :
    (∀ (a b : Particle ℝ) (f : ℝ × ℝ),
      accumulate Real.sqrt (configWith ℝ 1 0) 1 a b f = f) ∧
    (∀ (i n : Nat) (s : Memory ℝ), i < 1 → n ≤ 1 →
      ∃ s' : Memory ℝ,
        forLoop (subStep Real.sqrt (configWith ℝ 1 0) 1 ⟨0, 1⟩ ⟨1, 1⟩ i) 0 n (s, 0, 0) =
          some (s', 0, 0)) ∧
    ∃ r r' : Memory ℝ,
      ParticleGroupsUpdate Real.sqrt ⟨0, 1⟩ ⟨1, 1⟩ 1 (configWith ℝ 1 0)
        (memoryOf [particleAt Red 0 0 1 1] (particleAt Yellow 10 0 0 0)) = some r ∧
      ParticleGroupsUpdate Real.sqrt ⟨0, 1⟩ ⟨1, 1⟩ (-1) (configWith ℝ 1 0)
        (memoryOf [particleAt Red 0 0 1 1] (particleAt Yellow 3 4 0 0)) = some r' ∧
      ∀ k, k < 1 → r (0 + k) = r' (0 + k) :=
  C4_actionDistance_nonpos_no_force Real.sqrt (configWith ℝ 1 0) (le_refl (0 : ℝ))
    ⟨0, 1⟩ ⟨1, 1⟩ ⟨1, 1⟩ rfl rfl 1 (-1)
    (memoryOf [particleAt Red 0 0 1 1] (particleAt Yellow 10 0 0 0))
    (memoryOf [particleAt Red 0 0 1 1] (particleAt Yellow 3 4 0 0))
    (fun k (hk : k < 1) => by
      have hk0 : k = 0 := by omega
      subst hk0
      rfl)

/-- Claim C5. With gravity `0` and groups of the same length, a comparison
leaves the accumulators as they are, after any number of sub-steps of the
inner loop `fx` and `fy` are `0`, and the source group the pass returns is the
same for every target group and target contents.  The bounce still applies:
for a particle at `x = 0` moving left, the pass ends with the particle outside
the arena and its velocity reversed. -/
theorem C5_gravity_zero_no_force (sqrt : F → F) (config : Config F)
    (gOne gTwo gTwo' : ParticleGroup)
    (hlen : gTwo.len = gOne.len) (hlen' : gTwo'.len = gOne.len)
    (mem mem' : Memory F)
    (hsrc : ∀ k, k < gOne.len → mem (gOne.ptr + k) = mem' (gOne.ptr + k)) :
    (∀ (a b : Particle F) (f : F × F), accumulate sqrt config 0 a b f = f) ∧
    (∀ (i n : Nat) (s : Memory F), i < gOne.len → n ≤ gOne.len →
      ∃ s' : Memory F,
        forLoop (subStep sqrt config 0 gOne gTwo i) 0 n (s, 0, 0) = some (s', 0, 0)) ∧
    (∃ r r' : Memory F,
      ParticleGroupsUpdate sqrt gOne gTwo 0 config mem = some r ∧
      ParticleGroupsUpdate sqrt gOne gTwo' 0 config mem' = some r' ∧
      ∀ k, k < gOne.len → r (gOne.ptr + k) = r' (gOne.ptr + k)) ∧
    ∃ r : Memory F,
      ParticleGroupsUpdate sqrt ⟨0, 1⟩ ⟨1, 1⟩ 0 (configWith F 1 75)
        (memoryOf [particleAt Red 0 0 (-1) 0] (particleAt Yellow 10 0 0 0)) = some r ∧
      r 0 = particleAt Red (-1) 0 1 0 := by
  have hno : ∀ (c : Config F) (a b : Particle F), accumulate sqrt c 0 a b (0, 0) = (0, 0) :=
    fun c a b => accumulate_of_gravity_zero sqrt c a b (0, 0)
  refine ⟨accumulate_of_gravity_zero sqrt config, ?_, ?_, ?_⟩
  · intro i n s hi hn
    exact ⟨_, innerLoop_noForce sqrt config 0 (hno config) gOne gTwo hi n 0 s (by omega)⟩
  · refine ⟨_, _,
      ParticleGroupsUpdate_noForce sqrt config 0 (hno config) gOne gTwo (by omega) mem,
      ParticleGroupsUpdate_noForce sqrt config 0 (hno config) gOne gTwo' (by omega) mem', ?_⟩
    intro k hk
    simp only [hsrc k hk]
  · refine ⟨_, ParticleGroupsUpdate_noForce sqrt (configWith F 1 75) 0 (hno _) ⟨0, 1⟩ ⟨1, 1⟩
      (le_refl 1) _, ?_⟩
    simp [memoryOf, particleAt, advance, configWith, mainConfig]

/-- Witness for C5: the target particle at `(10, 0)` against `(3, 4)`. -/
theorem C5_gravity_zero_no_force_witness :
    ∃ r r' : Memory ℝ,
      ParticleGroupsUpdate Real.sqrt ⟨0, 1⟩ ⟨1, 1⟩ 0 (configWith ℝ 1 75)
        (memoryOf [particleAt Red 0 0 1 1] (particleAt Yellow 10 0 0 0)) = some r ∧
      ParticleGroupsUpdate Real.sqrt ⟨0, 1⟩ ⟨1, 1⟩ 0 (configWith ℝ 1 75)
        (memoryOf [particleAt Red 0 0 1 1] (particleAt Yellow 3 4 0 0)) = some r' ∧
      ∀ k, k < 1 → r (0 + k) = r' (0 + k) :=
  (C5_gravity_zero_no_force Real.sqrt (configWith ℝ 1 75)
    ⟨0, 1⟩ ⟨1, 1⟩ ⟨1, 1⟩ rfl rfl
    (memoryOf [particleAt Red 0 0 1 1] (particleAt Yellow 10 0 0 0))
    (memoryOf [particleAt Red 0 0 1 1] (particleAt Yellow 3 4 0 0))
    (fun k (hk : k < 1) => by
      have hk0 : k = 0 := by omega
      subst hk0
      rfl)).2.2.1

end NoForce

/-! ## The distance calculator -/

section Distance

variable {F : Type} [LinearOrderedField F]

/-- Claim C6. The displacement is symmetric:
`ParticleDistanceCalculate(a, b).displacement` equals
`ParticleDistanceCalculate(b, a).displacement`. -/
theorem C6_displacement_symmetric (sqrt : F → F) (a b : Particle F) :
    (ParticleDistanceCalculate sqrt a b).displacement =
      (ParticleDistanceCalculate sqrt b a).displacement := by
  simp only [ParticleDistanceCalculate]
  congr 1
  ring

/-- In exact arithmetic the displacement is non-negative, it is `0` exactly
when the two particles have the same `X` and the same `Y`, and the displacement
of a particle from itself is `0`. -/
theorem displacement_exact_zero_iff (sqrt : F → F) (hsqrt : IsSqrt sqrt)
    (a b : Particle F) :
    0 ≤ (ParticleDistanceCalculate sqrt a b).displacement ∧
    ((ParticleDistanceCalculate sqrt a b).displacement = 0 ↔
      a.position.X = b.position.X ∧ a.position.Y = b.position.Y) ∧
    (ParticleDistanceCalculate sqrt a a).displacement = 0 := by
  have hsum : ∀ u v : F, 0 ≤ u ^ 2 + v ^ 2 :=
    fun u v => add_nonneg (sq_nonneg u) (sq_nonneg v)
  have hzero : ∀ u v : F, u ^ 2 + v ^ 2 = 0 ↔ u = 0 ∧ v = 0 := by
    intro u v
    constructor
    · intro h
      have hu : u ^ 2 = 0 := le_antisymm (by nlinarith [sq_nonneg v]) (sq_nonneg u)
      have hv : v ^ 2 = 0 := le_antisymm (by nlinarith [sq_nonneg u]) (sq_nonneg v)
      exact ⟨pow_eq_zero_iff (two_ne_zero) |>.mp hu, pow_eq_zero_iff (two_ne_zero) |>.mp hv⟩
    · rintro ⟨rfl, rfl⟩
      norm_num
  simp only [ParticleDistanceCalculate]
  refine ⟨hsqrt.nonneg (hsum _ _), ?_, ?_⟩
  · rw [hsqrt.eq_zero_iff (hsum _ _), hzero, sub_eq_zero, sub_eq_zero]
  · rw [hsqrt.eq_zero_iff (hsum _ _), hzero, sub_eq_zero, sub_eq_zero]
    exact ⟨rfl, rfl⟩

end Distance

/-! ## Groups of different lengths -/

section Lengths

variable {F : Type} [LinearOrderedField F]

/-- A pass over an empty source group runs no iteration and leaves the memory
as it is. -/
theorem ParticleGroupsUpdate_empty_source (sqrt : F → F) (config : Config F) (gravity : F)
    (p : Nat) (gTwo : ParticleGroup) (mem : Memory F) :
    ParticleGroupsUpdate sqrt ⟨p, 0⟩ gTwo gravity config mem = some mem := rfl

/-- A pass whose target group is shorter than its source group panics: the
inner loop runs the target index up to the length of the source group. -/
theorem ParticleGroupsUpdate_shorter_target (sqrt : F → F) (config : Config F) (gravity : F)
    (gOne gTwo : ParticleGroup) (hlen : gTwo.len < gOne.len) (mem : Memory F) :
    ParticleGroupsUpdate sqrt gOne gTwo gravity config mem = none := by
  have hinner : ∀ (n j : Nat) (s : Memory F × F × F), j ≤ gTwo.len → gTwo.len < j + n →
      forLoop (subStep sqrt config gravity gOne gTwo 0) j n s = none := by
    intro n
    induction n with
    | zero =>
      intro j s h1 h2
      omega
    | succ n ih =>
      intro j s h1 h2
      rw [forLoop_succ]
      by_cases hj : j < gTwo.len
      · rw [subStep_of_lt sqrt config gravity gOne gTwo (by omega) hj, Option.some_bind]
        exact ih (j + 1) _ (by omega) (by omega)
      · rw [subStep_of_ge sqrt config gravity gOne gTwo 0 (by omega)]
        rfl
  obtain ⟨m, hm⟩ : ∃ m, gOne.len = m + 1 := ⟨gOne.len - 1, by omega⟩
  unfold ParticleGroupsUpdate
  simp only [hm, forLoop_succ, sourceStep]
  rw [← forLoop_succ, ← hm, hinner gOne.len 0 _ (by omega) (by omega)]
  rfl

/-- Claim C8, at the failing input: a source group of one particle and a
target group of no particle.  The pass does not complete: reading `gTwo[0]`
is out of range. -/
theorem C8_empty_target_panics :
    ParticleGroupsUpdate Real.sqrt ⟨0, 1⟩ ⟨1, 0⟩ 1 (mainConfig ℝ)
      (memoryOf [particleAt Red 0 0 0 0] (particleAt Yellow 10 0 0 0)) = none :=
  ParticleGroupsUpdate_shorter_target Real.sqrt (mainConfig ℝ) 1 ⟨0, 1⟩ ⟨1, 0⟩
    (by decide) _

/-- Claim C9, at the failing input: a source group of one particle at `(0, 0)`
and a target group of two particles, both at `(10, 0)`, gravity `1`, action
distance `1000`, velocity factor `1`.  The source particle receives one
sub-step, against the first target particle only: it ends at `x = -1`, where
a second sub-step would have moved it on to `x = -2`. -/
theorem C9_longer_target_one_subStep :
    ∃ r : Memory ℝ,
      ParticleGroupsUpdate Real.sqrt ⟨0, 1⟩ ⟨1, 2⟩ 1 (configWith ℝ 1 1000)
        (memoryOf [particleAt Red 0 0 0 0] (particleAt Yellow 10 0 0 0)) = some r ∧
      r 0 = particleAt Red (-1) 0 1 0 ∧
      advance (configWith ℝ 1 1000)
        (accumulate Real.sqrt (configWith ℝ 1 1000) 1 (r 0) (particleAt Yellow 10 0 0 0)
          (-1, 0)) (r 0) = particleAt Red (-2) 0 1 0 := by
  have h10 : Real.sqrt (((0 : ℝ) - 10) ^ 2 + (0 - 0) ^ 2) = 10 := by
    have : ((0 : ℝ) - 10) ^ 2 + (0 - 0) ^ 2 = 10 * 10 := by norm_num
    rw [this]
    exact isSqrt_real.sqrt_mul_self (by norm_num)
  have h11 : Real.sqrt (((-1 : ℝ) - 10) ^ 2 + (0 - 0) ^ 2) = 11 := by
    have : ((-1 : ℝ) - 10) ^ 2 + (0 - 0) ^ 2 = 11 * 11 := by norm_num
    rw [this]
    exact isSqrt_real.sqrt_mul_self (by norm_num)
  have hacc1 : accumulate Real.sqrt (configWith ℝ 1 1000) 1 (particleAt Red 0 0 0 0)
      (particleAt Yellow 10 0 0 0) (0, 0) = (-1, 0) := by
    simp only [accumulate, ParticleDistanceCalculate, particleAt, configWith, h10]
    norm_num
  have hadv1 : advance (configWith ℝ 1 1000) (-1, 0) (particleAt Red 0 0 0 0) =
      particleAt Red (-1) 0 1 0 := by
    simp only [advance, particleAt, configWith, mainConfig]
    norm_num
  have hacc2 : accumulate Real.sqrt (configWith ℝ 1 1000) 1 (particleAt Red (-1) 0 1 0)
      (particleAt Yellow 10 0 0 0) (-1, 0) = (-2, 0) := by
    simp only [accumulate, ParticleDistanceCalculate, particleAt, configWith, h11]
    norm_num
  have hadv2 : advance (configWith ℝ 1 1000) (-2, 0) (particleAt Red (-1) 0 1 0) =
      particleAt Red (-2) 0 1 0 := by
    simp only [advance, particleAt, configWith, mainConfig]
    norm_num
  have hm0 : memoryOf [particleAt Red (0 : ℝ) 0 0 0] (particleAt Yellow 10 0 0 0) 0 =
      particleAt Red 0 0 0 0 := rfl
  have hm1 : memoryOf [particleAt Red (0 : ℝ) 0 0 0] (particleAt Yellow 10 0 0 0) 1 =
      particleAt Yellow 10 0 0 0 := rfl
  refine ⟨_, ParticleGroupsUpdate_single Real.sqrt (configWith ℝ 1 1000) 1 0 1 2 (by decide) _,
    ?_, ?_⟩
  · rw [Function.update_same, hm0, hm1, hacc1, hadv1]
  · rw [Function.update_same, hm0, hm1, hacc1, hadv1, hacc2, hadv2]

end Lengths

/-! ## The bounce at the right edge -/

section Bounce

variable {F : Type} [LinearOrderedField F]

/-- Claim C10 fails for groups of two particles: velocity factor `1/2`,
gravity `0`, arena width `800`, the first source particle at `x = 800` with
`vx = 1`.  The first sub-step moves it to `x = 800.5` and reverses `vx` to
`-1/2`; the second moves it to `x = 800.25`, still beyond the width, and
reverses `vx` again, to `1/4`. -/
theorem C10_two_subSteps_counterexample :
    0 < (configWith ℝ (1 / 2) 75).particleVelocityFactor ∧
    (memoryOf [particleAt Red (800 : ℝ) 0 1 0, particleAt Red 400 200 0 0]
      (particleAt Yellow 0 0 0 0) 0).position.X = ((configWith ℝ (1 / 2) 75).winWidth : ℝ) ∧
    0 < (memoryOf [particleAt Red (800 : ℝ) 0 1 0, particleAt Red 400 200 0 0]
      (particleAt Yellow 0 0 0 0) 0).vx ∧
    ∃ r : Memory ℝ,
      ParticleGroupsUpdate Real.sqrt ⟨0, 2⟩ ⟨2, 2⟩ 0 (configWith ℝ (1 / 2) 75)
        (memoryOf [particleAt Red 800 0 1 0, particleAt Red 400 200 0 0]
          (particleAt Yellow 0 0 0 0)) = some r ∧
      (r 0).vx = 1 / 4 ∧ ¬ (r 0).vx < 0 := by
  refine ⟨by simp [configWith], by simp [memoryOf, particleAt, configWith, mainConfig],
    by simp [memoryOf, particleAt], _,
    ParticleGroupsUpdate_noForce Real.sqrt (configWith ℝ (1 / 2) 75) 0
      (fun a b => accumulate_of_gravity_zero Real.sqrt _ a b (0, 0)) ⟨0, 2⟩ ⟨2, 2⟩
      (le_refl 2) _, ?_⟩
  have h : ((advance (configWith ℝ (1 / 2) 75) (0, 0))^[2]
      (particleAt Red (800 : ℝ) 0 1 0)).vx = 1 / 4 := by
    simp only [Function.iterate_succ, Function.iterate_zero, Function.comp, id, advance,
      particleAt, configWith, mainConfig]
    norm_num
  have hr : ((fun p => if 0 ≤ p ∧ p < 0 + 2 then
      (advance (configWith ℝ (1 / 2) 75) (0, 0))^[2]
        (memoryOf [particleAt Red (800 : ℝ) 0 1 0, particleAt Red 400 200 0 0]
          (particleAt Yellow 0 0 0 0) p)
      else memoryOf [particleAt Red (800 : ℝ) 0 1 0, particleAt Red 400 200 0 0]
        (particleAt Yellow 0 0 0 0) p) 0).vx = 1 / 4 := h
  refine ⟨hr, ?_⟩
  rw [hr]
  norm_num

/-- In exact arithmetic, with gravity `0`, a positive velocity factor and
groups of exactly one particle, a source particle that starts the pass at
`position.X = winWidth` with `vx > 0` has `vx < 0` when the pass returns. -/
theorem bounce_at_width_single_exact (sqrt : F → F) (config : Config F)
    (hk : 0 < config.particleVelocityFactor) (gOne gTwo : ParticleGroup)
    (hone : gOne.len = 1) (hlen : gTwo.len = gOne.len) (mem : Memory F)
    (hx : (mem gOne.ptr).position.X = (config.winWidth : F))
    (hv : 0 < (mem gOne.ptr).vx) :
    ∃ r : Memory F,
      ParticleGroupsUpdate sqrt gOne gTwo 0 config mem = some r ∧ (r gOne.ptr).vx < 0 := by
  refine ⟨_, ParticleGroupsUpdate_noForce sqrt config 0
    (fun a b => accumulate_of_gravity_zero sqrt config a b (0, 0)) gOne gTwo (by omega) mem, ?_⟩
  have hpos : 0 < ((mem gOne.ptr).vx + 0) * config.particleVelocityFactor := by
    rw [add_zero]
    exact mul_pos hv hk
  rw [if_pos ⟨le_refl _, by omega⟩, hone, Function.iterate_one]
  simp only [advance, hx]
  rw [if_pos (Or.inr (lt_add_of_pos_right _ hpos))]
  split_ifs <;> simp only [mul_neg_one, neg_lt_zero] <;> exact hpos

end Bounce

/-! ## Relations kept by every pass -/

section Relations

variable {F : Type} [LinearOrderedField F]

/-- A reflexive and transitive relation kept by every round of a loop is kept
by the loop. -/
theorem forLoop_rel {σ : Type} (T : σ → σ → Prop) (hrefl : ∀ s, T s s)
    (htrans : ∀ a b c, T a b → T b c → T a c) (body : Nat → σ → Option σ) (n : Nat) :
    ∀ (i : Nat) (s s' : σ),
      (∀ k t t', i ≤ k → k < i + n → body k t = some t' → T t t') →
      forLoop body i n s = some s' → T s s' := by
  induction n with
  | zero =>
    intro i s s' _ h
    rw [forLoop_zero] at h
    cases h
    exact hrefl s
  | succ n ih =>
    intro i s s' hbody h
    rw [forLoop_succ] at h
    cases hb : body i s with
    | none => rw [hb] at h; cases h
    | some t =>
      rw [hb, Option.some_bind] at h
      exact htrans s t s' (hbody i s t (le_refl i) (by omega) hb)
        (ih (i + 1) t s' (fun k u u' h1 h2 => hbody k u u' (by omega) (by omega)) h)

/-- A loop whose every round returns, returns. -/
theorem forLoop_total {σ : Type} (body : Nat → σ → Option σ) (n : Nat) :
    ∀ (i : Nat) (s : σ),
      (∀ k t, i ≤ k → k < i + n → ∃ t', body k t = some t') →
      ∃ s', forLoop body i n s = some s' := by
  induction n with
  | zero =>
    intro i s _
    exact ⟨s, rfl⟩
  | succ n ih =>
    intro i s hbody
    obtain ⟨t, ht⟩ := hbody i s (le_refl i) (by omega)
    rw [forLoop_succ, ht, Option.some_bind]
    exact ih (i + 1) t (fun k u h1 h2 => hbody k u (by omega) (by omega))

/-- A sub-step relates the old and the new particle at every address, for a
reflexive relation that `advance` keeps at the address of the source
particle. -/
theorem subStep_rel (Rel : Nat → Particle F → Particle F → Prop)
    (hrefl : ∀ p a, Rel p a a) (sqrt : F → F) (config : Config F) (gravity : F)
    (gOne gTwo : ParticleGroup) (i j : Nat)
    (hadv : ∀ f a, Rel (gOne.ptr + i) a (advance config f a))
    (s s' : Memory F × F × F)
    (h : subStep sqrt config gravity gOne gTwo i j s = some s') :
    ∀ p, Rel p (s.1 p) (s'.1 p) := by
  by_cases hi : i < gOne.len
  · by_cases hj : j < gTwo.len
    · rw [subStep_of_lt sqrt config gravity gOne gTwo hi hj] at h
      injection h with h
      subst h
      intro p
      by_cases hp : p = gOne.ptr + i
      · subst hp
        simp only [Function.update_same]
        exact hadv _ _
      · simp only [Function.update_noteq hp]
        exact hrefl _ _
    · rw [subStep_of_ge sqrt config gravity gOne gTwo i (by omega)] at h
      cases h
  · unfold subStep at h
    rw [index_of_ge gOne (by omega)] at h
    cases h

/-- The inner loop for one source particle keeps such a relation. -/
theorem sourceStep_rel (Rel : Nat → Particle F → Particle F → Prop)
    (hrefl : ∀ p a, Rel p a a) (htrans : ∀ p a b c, Rel p a b → Rel p b c → Rel p a c)
    (sqrt : F → F) (config : Config F) (gravity : F)
    (gOne gTwo : ParticleGroup) (max i : Nat)
    (hadv : ∀ f a, Rel (gOne.ptr + i) a (advance config f a))
    (mem r : Memory F)
    (h : sourceStep sqrt config gravity gOne gTwo max i mem = some r) :
    ∀ p, Rel p (mem p) (r p) := by
  unfold sourceStep at h
  cases hl : forLoop (subStep sqrt config gravity gOne gTwo i) 0 max (mem, 0, 0) with
  | none => rw [hl] at h; cases h
  | some s' =>
    rw [hl] at h
    injection h with h
    subst h
    exact forLoop_rel (fun s t : Memory F × F × F => ∀ p, Rel p (s.1 p) (t.1 p))
      (fun s p => hrefl p _) (fun a b c hab hbc p => htrans p _ _ _ (hab p) (hbc p))
      _ max 0 (mem, 0, 0) s'
      (fun k t t' _ _ hk => subStep_rel Rel hrefl sqrt config gravity gOne gTwo i k hadv t t' hk)
      hl

/-- A pass keeps such a relation when `advance` keeps it at every address of
the source group. -/
theorem ParticleGroupsUpdate_rel (Rel : Nat → Particle F → Particle F → Prop)
    (hrefl : ∀ p a, Rel p a a) (htrans : ∀ p a b c, Rel p a b → Rel p b c → Rel p a c)
    (sqrt : F → F) (config : Config F) (gravity : F) (gOne gTwo : ParticleGroup)
    (hadv : ∀ i, i < gOne.len → ∀ f a, Rel (gOne.ptr + i) a (advance config f a))
    (mem r : Memory F)
    (h : ParticleGroupsUpdate sqrt gOne gTwo gravity config mem = some r) :
    ∀ p, Rel p (mem p) (r p) :=
  forLoop_rel (fun s t : Memory F => ∀ p, Rel p (s p) (t p))
    (fun s p => hrefl p _) (fun a b c hab hbc p => htrans p _ _ _ (hab p) (hbc p))
    _ gOne.len 0 mem r
    (fun k t t' _ hk2 hk => sourceStep_rel Rel hrefl htrans sqrt config gravity gOne gTwo
      gOne.len k (hadv k (by omega)) t t' hk)
    h

/-- A simulation step keeps such a relation when `advance` keeps it at every
address of the three groups. -/
theorem ApplyInteractivity_rel (Rel : Nat → Particle F → Particle F → Prop)
    (hrefl : ∀ p a, Rel p a a) (htrans : ∀ p a b c, Rel p a b → Rel p b c → Rel p a c)
    (sqrt : F → F) (groups : ParticleGroups) (m : InteractivityMatrix F) (config : Config F)
    (hadv : ∀ (g : Fin MAX_GROUPS) (i : Nat), i < (groups g).len →
      ∀ f a, Rel ((groups g).ptr + i) a (advance config f a))
    (mem r : Memory F)
    (h : ApplyInteractivity sqrt groups m config mem = some r) :
    ∀ p, Rel p (mem p) (r p) := by
  have hT : ∀ s : Memory F, ∀ p, Rel p (s p) (s p) := fun s p => hrefl p _
  have hTT : ∀ a b c : Memory F, (∀ p, Rel p (a p) (b p)) → (∀ p, Rel p (b p) (c p)) →
      ∀ p, Rel p (a p) (c p) := fun a b c hab hbc p => htrans p _ _ _ (hab p) (hbc p)
  refine forLoop_rel (fun s t : Memory F => ∀ p, Rel p (s p) (t p)) hT hTT _ MAX_GROUPS 0 mem r
    ?_ h
  intro i t t' _ _ hi
  refine forLoop_rel (fun s t : Memory F => ∀ p, Rel p (s p) (t p)) hT hTT _ MAX_GROUPS 0 t t'
    ?_ hi
  intro j u u' _ _ hj
  by_cases hij : i < MAX_GROUPS ∧ j < MAX_GROUPS
  · rw [dif_pos hij] at hj
    exact ParticleGroupsUpdate_rel Rel hrefl htrans sqrt config _ _ _
      (hadv ⟨i, hij.1⟩) u u' hj
  · rw [dif_neg hij] at hj
    cases hj

/-- A pass whose target group is at least as long as its source group
returns. -/
theorem ParticleGroupsUpdate_total (sqrt : F → F) (config : Config F) (gravity : F)
    (gOne gTwo : ParticleGroup) (hlen : gOne.len ≤ gTwo.len) (mem : Memory F) :
    ∃ r, ParticleGroupsUpdate sqrt gOne gTwo gravity config mem = some r := by
  refine forLoop_total _ gOne.len 0 mem ?_
  intro i t _ hi
  obtain ⟨s', hs'⟩ := forLoop_total (subStep sqrt config gravity gOne gTwo i) gOne.len 0
    (t, 0, 0) (fun j u _ hj =>
      ⟨_, subStep_of_lt sqrt config gravity gOne gTwo (by omega) (by omega) u⟩)
  exact ⟨s'.1, by simp only [sourceStep, hs', Option.map_some']⟩

/-- A simulation step over three groups of the same length returns. -/
theorem ApplyInteractivity_total (sqrt : F → F) (groups : ParticleGroups)
    (m : InteractivityMatrix F) (config : Config F)
    (hlen : ∀ g h : Fin MAX_GROUPS, (groups g).len = (groups h).len) (mem : Memory F) :
    ∃ r, ApplyInteractivity sqrt groups m config mem = some r := by
  refine forLoop_total _ MAX_GROUPS 0 mem ?_
  intro i t _ hi
  refine forLoop_total _ MAX_GROUPS 0 t ?_
  intro j u _ hj
  have hij : i < MAX_GROUPS ∧ j < MAX_GROUPS := ⟨by omega, by omega⟩
  rw [dif_pos hij]
  exact ParticleGroupsUpdate_total sqrt config _ _ _ (le_of_eq (hlen _ _)) u

end Relations

/-! ## The sign of the gravity coefficient -/

section Sign

variable {F : Type} [LinearOrderedField F]

/-- The position reached by `advance`: the bounce does not move the particle. -/
theorem advance_position (config : Config F) (f : F × F) (a : Particle F) :
    (advance config f a).position =
      { X := a.position.X + (a.vx + f.1) * config.particleVelocityFactor
        Y := a.position.Y + a.vy * f.2 * config.particleVelocityFactor } := by
  simp only [advance]
  split_ifs <;> rfl

/-- Claim C11 fails for a positive coefficient: source particle at `(100, 100)`
at rest, target particle at `(110, 100)`, displacement `10` below the action
distance `75`, gravity `1`, velocity factor `1`.  The target lies to the right
of the source, and the pass moves the source to the left, to `x = 99`, with
`vx = -1`. -/
theorem C11_positive_gravity_counterexample :
    0 < (ParticleDistanceCalculate Real.sqrt (particleAt Red (100 : ℝ) 100 0 0)
      (particleAt Yellow 110 100 0 0)).displacement ∧
    (ParticleDistanceCalculate Real.sqrt (particleAt Red (100 : ℝ) 100 0 0)
      (particleAt Yellow 110 100 0 0)).displacement < 75 ∧
    ∃ r : Memory ℝ,
      ParticleGroupsUpdate Real.sqrt ⟨0, 1⟩ ⟨1, 1⟩ 1 (configWith ℝ 1 75)
        (memoryOf [particleAt Red 100 100 0 0] (particleAt Yellow 110 100 0 0)) = some r ∧
      r 0 = particleAt Red 99 100 (-1) 0 := by
  have h10 : Real.sqrt (((100 : ℝ) - 110) ^ 2 + (100 - 100) ^ 2) = 10 := by
    have : ((100 : ℝ) - 110) ^ 2 + (100 - 100) ^ 2 = 10 * 10 := by norm_num
    rw [this]
    exact isSqrt_real.sqrt_mul_self (by norm_num)
  have hd : (ParticleDistanceCalculate Real.sqrt (particleAt Red (100 : ℝ) 100 0 0)
      (particleAt Yellow 110 100 0 0)).displacement = 10 := by
    simp only [ParticleDistanceCalculate, particleAt, h10]
  have hacc : accumulate Real.sqrt (configWith ℝ 1 75) 1 (particleAt Red 100 100 0 0)
      (particleAt Yellow 110 100 0 0) (0, 0) = (-1, 0) := by
    simp only [accumulate, ParticleDistanceCalculate, particleAt, configWith, h10]
    norm_num
  have hadv : advance (configWith ℝ 1 75) (-1, 0) (particleAt Red 100 100 0 0) =
      particleAt Red 99 100 (-1) 0 := by
    simp only [advance, particleAt, configWith, mainConfig]
    norm_num
  have hm0 : memoryOf [particleAt Red (100 : ℝ) 100 0 0] (particleAt Yellow 110 100 0 0) 0 =
      particleAt Red 100 100 0 0 := rfl
  have hm1 : memoryOf [particleAt Red (100 : ℝ) 100 0 0] (particleAt Yellow 110 100 0 0) 1 =
      particleAt Yellow 110 100 0 0 := rfl
  refine ⟨by rw [hd]; norm_num, by rw [hd]; norm_num, _,
    ParticleGroupsUpdate_single Real.sqrt (configWith ℝ 1 75) 1 0 1 1 (by decide) _, ?_⟩
  rw [Function.update_same, hm0, hm1, hacc, hadv]

/-- Claim C11, amended. For a source particle with zero x-velocity and a
target particle at a displacement `0 < d < particleActionDistance`, with a
positive velocity factor, the step the pass makes the source particle take
along x (the velocity the force gives it, before any bounce) has the sign of
`a.x - b.x` when gravity is positive, away from the target, and the sign of
`b.x - a.x` when gravity is negative, towards the target. -/
theorem C11_positive_gravity_repels (sqrt : F → F) (config : Config F)
    (hk : 0 < config.particleVelocityFactor) (g : F) (p q : Nat) (mem : Memory F)
    (hvx : (mem p).vx = 0)
    (hd : 0 < (ParticleDistanceCalculate sqrt (mem p) (mem q)).displacement ∧
      (ParticleDistanceCalculate sqrt (mem p) (mem q)).displacement <
        config.particleActionDistance) :
    ∃ r : Memory F,
      ParticleGroupsUpdate sqrt ⟨p, 1⟩ ⟨q, 1⟩ g config mem = some r ∧
      (0 < g → SignType.sign ((r p).position.X - (mem p).position.X) =
        SignType.sign ((mem p).position.X - (mem q).position.X)) ∧
      (g < 0 → SignType.sign ((r p).position.X - (mem p).position.X) =
        SignType.sign ((mem q).position.X - (mem p).position.X)) := by
  refine ⟨_, ParticleGroupsUpdate_single sqrt config g p q 1 (by decide) mem, ?_⟩
  have hacc : (accumulate sqrt config g (mem p) (mem q) (0, 0)).1 =
      g / (ParticleDistanceCalculate sqrt (mem p) (mem q)).displacement *
        ((mem p).position.X - (mem q).position.X) := by
    unfold accumulate
    rw [if_pos hd]
    simp only [zero_add]
    rfl
  have hstep : (Function.update mem p (advance config
      (accumulate sqrt config g (mem p) (mem q) (0, 0)) (mem p)) p).position.X -
      (mem p).position.X =
      g / (ParticleDistanceCalculate sqrt (mem p) (mem q)).displacement *
        config.particleVelocityFactor * ((mem p).position.X - (mem q).position.X) := by
    rw [Function.update_same, advance_position, hacc, hvx]
    simp only []
    ring
  rw [hstep]
  constructor
  · intro hg
    rw [sign_mul, sign_pos (mul_pos (div_pos hg hd.1) hk), one_mul]
  · intro hg
    have hneg : g / (ParticleDistanceCalculate sqrt (mem p) (mem q)).displacement *
        config.particleVelocityFactor < 0 :=
      mul_neg_of_neg_of_pos (div_neg_of_neg_of_pos hg hd.1) hk
    rw [sign_mul, sign_neg hneg, ← neg_sub (mem p).position.X, Left.sign_neg]
    simp

/-- Witness for the amended C11 over the real numbers: source at `(100, 100)`,
target at `(110, 100)`, gravity `1`. -/
theorem C11_positive_gravity_repels_witness :
    ∃ r : Memory ℝ,
      ParticleGroupsUpdate Real.sqrt ⟨0, 1⟩ ⟨1, 1⟩ 1 (configWith ℝ 1 75)
        (memoryOf [particleAt Red 100 100 0 0] (particleAt Yellow 110 100 0 0)) = some r ∧
      (0 < (1 : ℝ) → SignType.sign ((r 0).position.X -
          (memoryOf [particleAt Red (100 : ℝ) 100 0 0] (particleAt Yellow 110 100 0 0)
            0).position.X) =
        SignType.sign ((memoryOf [particleAt Red (100 : ℝ) 100 0 0]
            (particleAt Yellow 110 100 0 0) 0).position.X -
          (memoryOf [particleAt Red (100 : ℝ) 100 0 0] (particleAt Yellow 110 100 0 0)
            1).position.X)) ∧
      ((1 : ℝ) < 0 → SignType.sign ((r 0).position.X -
          (memoryOf [particleAt Red (100 : ℝ) 100 0 0] (particleAt Yellow 110 100 0 0)
            0).position.X) =
        SignType.sign ((memoryOf [particleAt Red (100 : ℝ) 100 0 0]
            (particleAt Yellow 110 100 0 0) 1).position.X -
          (memoryOf [particleAt Red (100 : ℝ) 100 0 0] (particleAt Yellow 110 100 0 0)
            0).position.X)) :=
  C11_positive_gravity_repels Real.sqrt (configWith ℝ 1 75) (by simp [configWith]) 1 0 1
    (memoryOf [particleAt Red 100 100 0 0] (particleAt Yellow 110 100 0 0)) rfl
    (by
      have h10 : Real.sqrt (((100 : ℝ) - 110) ^ 2 + (100 - 100) ^ 2) = 10 := by
        have : ((100 : ℝ) - 110) ^ 2 + (100 - 100) ^ 2 = 10 * 10 := by norm_num
        rw [this]
        exact isSqrt_real.sqrt_mul_self (by norm_num)
      have hd : (ParticleDistanceCalculate Real.sqrt
          (memoryOf [particleAt Red (100 : ℝ) 100 0 0] (particleAt Yellow 110 100 0 0) 0)
          (memoryOf [particleAt Red (100 : ℝ) 100 0 0] (particleAt Yellow 110 100 0 0) 1)
          ).displacement = 10 := h10
      rw [hd]
      simp only [configWith]
      norm_num)

end Sign

/-! ## The order of the target group -/

section Order

variable {F : Type} [LinearOrderedField F]

/-- The inner loop over two target particles `b0 = gTwo[0]` and `b1 = gTwo[1]`
that are not the source particle: two sub-steps, the second on the particle
and the accumulators left by the first. -/
theorem sourceStep_two_targets (sqrt : F → F) (config : Config F) (gravity : F)
    (gOne gTwo : ParticleGroup) {i : Nat} (hi : i < gOne.len) (htwo : 2 ≤ gTwo.len)
    (h1 : gTwo.ptr + 1 ≠ gOne.ptr + i)
    (mem : Memory F) :
    sourceStep sqrt config gravity gOne gTwo 2 i mem =
      some (Function.update mem (gOne.ptr + i)
        (advance config
          (accumulate sqrt config gravity
            (advance config
              (accumulate sqrt config gravity (mem (gOne.ptr + i)) (mem (gTwo.ptr + 0)) (0, 0))
              (mem (gOne.ptr + i)))
            (mem (gTwo.ptr + 1))
            (accumulate sqrt config gravity (mem (gOne.ptr + i)) (mem (gTwo.ptr + 0)) (0, 0)))
          (advance config
            (accumulate sqrt config gravity (mem (gOne.ptr + i)) (mem (gTwo.ptr + 0)) (0, 0))
            (mem (gOne.ptr + i))))) := by
  unfold sourceStep
  rw [forLoop_succ, subStep_of_lt sqrt config gravity gOne gTwo hi (by omega), Option.some_bind,
    forLoop_succ, subStep_of_lt sqrt config gravity gOne gTwo hi (by omega), Option.some_bind,
    forLoop_zero]
  simp only [Option.map_some', Function.update_same, Function.update_idem,
    Function.update_noteq h1]

/-- The first source particle is finished after the first round of the outer
loop: the pass returns, and leaves at `gOne[0]` what that round wrote. -/
theorem ParticleGroupsUpdate_first (sqrt : F → F) (config : Config F) (gravity : F)
    (gOne gTwo : ParticleGroup) (hpos : 0 < gOne.len) (hlen : gOne.len ≤ gTwo.len)
    (mem m1 : Memory F)
    (h1 : sourceStep sqrt config gravity gOne gTwo gOne.len 0 mem = some m1) :
    ∃ r, ParticleGroupsUpdate sqrt gOne gTwo gravity config mem = some r ∧
      r gOne.ptr = m1 gOne.ptr := by
  obtain ⟨r, hr⟩ := ParticleGroupsUpdate_total sqrt config gravity gOne gTwo hlen mem
  refine ⟨r, hr, ?_⟩
  obtain ⟨n, hn⟩ : ∃ n, gOne.len = n + 1 := ⟨gOne.len - 1, by omega⟩
  unfold ParticleGroupsUpdate at hr
  simp only [] at hr
  rw [hn, forLoop_succ, ← hn, h1, Option.some_bind] at hr
  refine forLoop_rel (fun s t : Memory F => t gOne.ptr = s gOne.ptr) (fun _ => rfl)
    (fun a b c hab hbc => hbc.trans hab) _ n (0 + 1) m1 r ?_ hr
  intro k t t' hk _ hstep
  exact sourceStep_rel (fun p a a' => p = gOne.ptr → a' = a) (fun _ _ _ => rfl)
    (fun _ a b c hab hbc hp => (hbc hp).trans (hab hp)) sqrt config gravity gOne gTwo
    gOne.len k (fun _ _ hp => absurd hp (by omega)) t t' hstep gOne.ptr rfl

/-- Claim C12 fails when a force acts: source group `[a, a2]` with `a` at
`(100, 100)` at rest, target group `[b1, b2]` with `b1` at `(110, 100)` and
`b2` at `(400, 100)`, gravity `1`, velocity factor `1`, action distance `20`.
Against `[b1, b2]` the particle `a` is pushed by `b1` in the first sub-step
and again by the kept accumulator in the second: it ends at `x = 97` with
`vx = -2`.  Against the permuted target `[b2, b1]` the first sub-step applies
no force and the second pushes once: it ends at `x = 99` with `vx = -1`. -/
theorem C12_target_order_counterexample :
    ((⟨2, 2⟩ : ParticleGroup).particles
      (memoryOf [particleAt Red (100 : ℝ) 100 0 0, particleAt Red 200 200 0 0,
        particleAt Yellow 400 100 0 0] (particleAt Yellow 110 100 0 0))).Perm
      ((⟨2, 2⟩ : ParticleGroup).particles
        (memoryOf [particleAt Red (100 : ℝ) 100 0 0, particleAt Red 200 200 0 0,
          particleAt Yellow 110 100 0 0] (particleAt Yellow 400 100 0 0))) ∧
    ∃ r r' : Memory ℝ,
      ParticleGroupsUpdate Real.sqrt ⟨0, 2⟩ ⟨2, 2⟩ 1 (configWith ℝ 1 20)
        (memoryOf [particleAt Red 100 100 0 0, particleAt Red 200 200 0 0,
          particleAt Yellow 110 100 0 0] (particleAt Yellow 400 100 0 0)) = some r ∧
      ParticleGroupsUpdate Real.sqrt ⟨0, 2⟩ ⟨2, 2⟩ 1 (configWith ℝ 1 20)
        (memoryOf [particleAt Red 100 100 0 0, particleAt Red 200 200 0 0,
          particleAt Yellow 400 100 0 0] (particleAt Yellow 110 100 0 0)) = some r' ∧
      r 0 = particleAt Red 97 100 (-2) 0 ∧ r' 0 = particleAt Red 99 100 (-1) 0 := by
  have h10 : Real.sqrt (((100 : ℝ) - 110) ^ 2 + (100 - 100) ^ 2) = 10 := by
    have : ((100 : ℝ) - 110) ^ 2 + (100 - 100) ^ 2 = 10 * 10 := by norm_num
    rw [this]
    exact isSqrt_real.sqrt_mul_self (by norm_num)
  have h300 : Real.sqrt (((100 : ℝ) - 400) ^ 2 + (100 - 100) ^ 2) = 300 := by
    have : ((100 : ℝ) - 400) ^ 2 + (100 - 100) ^ 2 = 300 * 300 := by norm_num
    rw [this]
    exact isSqrt_real.sqrt_mul_self (by norm_num)
  have h301 : Real.sqrt (((99 : ℝ) - 400) ^ 2 + (100 - 100) ^ 2) = 301 := by
    have : ((99 : ℝ) - 400) ^ 2 + (100 - 100) ^ 2 = 301 * 301 := by norm_num
    rw [this]
    exact isSqrt_real.sqrt_mul_self (by norm_num)
  have hnear : accumulate Real.sqrt (configWith ℝ 1 20) 1 (particleAt Red 100 100 0 0)
      (particleAt Yellow 110 100 0 0) (0, 0) = (-1, 0) := by
    simp only [accumulate, ParticleDistanceCalculate, particleAt, configWith, h10]
    norm_num
  have hfar : accumulate Real.sqrt (configWith ℝ 1 20) 1 (particleAt Red 100 100 0 0)
      (particleAt Yellow 400 100 0 0) (0, 0) = (0, 0) := by
    simp only [accumulate, ParticleDistanceCalculate, particleAt, configWith, h300]
    norm_num
  have hfar' : accumulate Real.sqrt (configWith ℝ 1 20) 1 (particleAt Red 99 100 (-1) 0)
      (particleAt Yellow 400 100 0 0) (-1, 0) = (-1, 0) := by
    simp only [accumulate, ParticleDistanceCalculate, particleAt, configWith, h301]
    norm_num
  have hrest : advance (configWith ℝ 1 20) (0, 0) (particleAt Red 100 100 0 0) =
      particleAt Red 100 100 0 0 := by
    simp only [advance, particleAt, configWith, mainConfig]
    norm_num
  have hpush : advance (configWith ℝ 1 20) (-1, 0) (particleAt Red 100 100 0 0) =
      particleAt Red 99 100 (-1) 0 := by
    simp only [advance, particleAt, configWith, mainConfig]
    norm_num
  have hpush' : advance (configWith ℝ 1 20) (-1, 0) (particleAt Red 99 100 (-1) 0) =
      particleAt Red 97 100 (-2) 0 := by
    simp only [advance, particleAt, configWith, mainConfig]
    norm_num
  have hs : sourceStep Real.sqrt (configWith ℝ 1 20) 1 ⟨0, 2⟩ ⟨2, 2⟩ 2 0
      (memoryOf [particleAt Red 100 100 0 0, particleAt Red 200 200 0 0,
        particleAt Yellow 110 100 0 0] (particleAt Yellow 400 100 0 0)) =
      some (Function.update
        (memoryOf [particleAt Red 100 100 0 0, particleAt Red 200 200 0 0,
          particleAt Yellow 110 100 0 0] (particleAt Yellow 400 100 0 0)) 0
        (particleAt Red 97 100 (-2) 0)) := by
    rw [sourceStep_two_targets Real.sqrt (configWith ℝ 1 20) 1 ⟨0, 2⟩ ⟨2, 2⟩ (i := 0)
      (by decide) (by decide) (by decide)]
    show some (Function.update (_ : Memory ℝ) 0 (advance (configWith ℝ 1 20)
      (accumulate Real.sqrt (configWith ℝ 1 20) 1
        (advance (configWith ℝ 1 20)
          (accumulate Real.sqrt (configWith ℝ 1 20) 1 (particleAt Red 100 100 0 0)
            (particleAt Yellow 110 100 0 0) (0, 0))
          (particleAt Red 100 100 0 0))
        (particleAt Yellow 400 100 0 0)
        (accumulate Real.sqrt (configWith ℝ 1 20) 1 (particleAt Red 100 100 0 0)
          (particleAt Yellow 110 100 0 0) (0, 0)))
      (advance (configWith ℝ 1 20)
        (accumulate Real.sqrt (configWith ℝ 1 20) 1 (particleAt Red 100 100 0 0)
          (particleAt Yellow 110 100 0 0) (0, 0))
        (particleAt Red 100 100 0 0)))) = _
    rw [hnear, hpush, hfar', hpush']
  have hs' : sourceStep Real.sqrt (configWith ℝ 1 20) 1 ⟨0, 2⟩ ⟨2, 2⟩ 2 0
      (memoryOf [particleAt Red 100 100 0 0, particleAt Red 200 200 0 0,
        particleAt Yellow 400 100 0 0] (particleAt Yellow 110 100 0 0)) =
      some (Function.update
        (memoryOf [particleAt Red 100 100 0 0, particleAt Red 200 200 0 0,
          particleAt Yellow 400 100 0 0] (particleAt Yellow 110 100 0 0)) 0
        (particleAt Red 99 100 (-1) 0)) := by
    rw [sourceStep_two_targets Real.sqrt (configWith ℝ 1 20) 1 ⟨0, 2⟩ ⟨2, 2⟩ (i := 0)
      (by decide) (by decide) (by decide)]
    show some (Function.update (_ : Memory ℝ) 0 (advance (configWith ℝ 1 20)
      (accumulate Real.sqrt (configWith ℝ 1 20) 1
        (advance (configWith ℝ 1 20)
          (accumulate Real.sqrt (configWith ℝ 1 20) 1 (particleAt Red 100 100 0 0)
            (particleAt Yellow 400 100 0 0) (0, 0))
          (particleAt Red 100 100 0 0))
        (particleAt Yellow 110 100 0 0)
        (accumulate Real.sqrt (configWith ℝ 1 20) 1 (particleAt Red 100 100 0 0)
          (particleAt Yellow 400 100 0 0) (0, 0)))
      (advance (configWith ℝ 1 20)
        (accumulate Real.sqrt (configWith ℝ 1 20) 1 (particleAt Red 100 100 0 0)
          (particleAt Yellow 400 100 0 0) (0, 0))
        (particleAt Red 100 100 0 0)))) = _
    rw [hfar, hrest, hnear, hpush]
  obtain ⟨r, hr, hr0⟩ := ParticleGroupsUpdate_first Real.sqrt (configWith ℝ 1 20) 1
    ⟨0, 2⟩ ⟨2, 2⟩ (by decide) (le_refl 2) _ _ hs
  obtain ⟨r', hr', hr0'⟩ := ParticleGroupsUpdate_first Real.sqrt (configWith ℝ 1 20) 1
    ⟨0, 2⟩ ⟨2, 2⟩ (by decide) (le_refl 2) _ _ hs'
  refine ⟨List.Perm.swap _ _ _, r, r', hr, hr', ?_, ?_⟩
  · rw [hr0]
    exact Function.update_same _ _ _
  · rw [hr0']
    exact Function.update_same _ _ _

/-- Claim C12, amended. When no force acts, with gravity `0` or a non-positive
action distance, replacing the particles of the target group by a permutation
of them, the source group being the same, leaves the source group the pass
returns unchanged. -/
theorem C12_target_order_without_force (sqrt : F → F) (config : Config F) (g : F)
    (hno : g = 0 ∨ config.particleActionDistance ≤ 0)
    (gOne gTwo : ParticleGroup) (hlen : gTwo.len = gOne.len) (mem mem' : Memory F)
    (_hperm : (gTwo.particles mem').Perm (gTwo.particles mem))
    (hsrc : ∀ k, k < gOne.len → mem' (gOne.ptr + k) = mem (gOne.ptr + k)) :
    ∃ r r' : Memory F,
      ParticleGroupsUpdate sqrt gOne gTwo g config mem = some r ∧
      ParticleGroupsUpdate sqrt gOne gTwo g config mem' = some r' ∧
      ∀ k, k < gOne.len → r' (gOne.ptr + k) = r (gOne.ptr + k) := by
  have hacc : ∀ a b : Particle F, accumulate sqrt config g a b (0, 0) = (0, 0) := by
    intro a b
    rcases hno with h0 | hD
    · subst h0
      exact accumulate_of_gravity_zero sqrt config a b (0, 0)
    · exact accumulate_of_actionDistance_nonpos sqrt config hD g a b (0, 0)
  refine ⟨_, _, ParticleGroupsUpdate_noForce sqrt config g hacc gOne gTwo (by omega) mem,
    ParticleGroupsUpdate_noForce sqrt config g hacc gOne gTwo (by omega) mem', ?_⟩
  intro k hk
  simp only [hsrc k hk]

/-- Witness for the amended C12: gravity `0`, the target particles `[b1, b2]`
swapped. -/
theorem C12_target_order_without_force_witness :
    ∃ r r' : Memory ℝ,
      ParticleGroupsUpdate Real.sqrt ⟨0, 2⟩ ⟨2, 2⟩ 0 (configWith ℝ 1 20)
        (memoryOf [particleAt Red 100 100 1 0, particleAt Red 200 200 0 0,
          particleAt Yellow 110 100 0 0] (particleAt Yellow 400 100 0 0)) = some r ∧
      ParticleGroupsUpdate Real.sqrt ⟨0, 2⟩ ⟨2, 2⟩ 0 (configWith ℝ 1 20)
        (memoryOf [particleAt Red 100 100 1 0, particleAt Red 200 200 0 0,
          particleAt Yellow 400 100 0 0] (particleAt Yellow 110 100 0 0)) = some r' ∧
      ∀ k, k < 2 → r' (0 + k) = r (0 + k) :=
  C12_target_order_without_force Real.sqrt (configWith ℝ 1 20) 0 (Or.inl rfl)
    ⟨0, 2⟩ ⟨2, 2⟩ rfl
    (memoryOf [particleAt Red 100 100 1 0, particleAt Red 200 200 0 0,
      particleAt Yellow 110 100 0 0] (particleAt Yellow 400 100 0 0))
    (memoryOf [particleAt Red 100 100 1 0, particleAt Red 200 200 0 0,
      particleAt Yellow 400 100 0 0] (particleAt Yellow 110 100 0 0))
    (List.Perm.swap _ _ _)
    (fun k (hk : k < 2) => by
      have hk' : k = 0 ∨ k = 1 := by omega
      rcases hk' with h | h <;> subst h <;> rfl)

end Order

/-! ## What a simulation step keeps -/

section Kept

variable {F : Type} [LinearOrderedField F]

theorem advance_color (config : Config F) (f : F × F) (a : Particle F) :
    (advance config f a).color = a.color := by
  simp only [advance]
  split_ifs <;> rfl

/-- A particle with zero y-velocity keeps it, and keeps its `Y`, in a sub-step:
the new y-velocity is the old one multiplied by `fy`. -/
theorem advance_vy_zero (config : Config F) (f : F × F) (a : Particle F) (h : a.vy = 0) :
    (advance config f a).vy = 0 ∧ (advance config f a).position.Y = a.position.Y := by
  rw [advance_position]
  simp only [advance, h, zero_mul, add_zero]
  split_ifs <;> simp

/-- Claim C13. For three groups of the same length, `ApplyInteractivity`
returns, and in the memory it leaves every group has the length it had and,
particle by particle, the colours it had; the colour at every address is
unchanged. -/
theorem C13_population_fixed (sqrt : F → F) (groups : ParticleGroups)
    (m : InteractivityMatrix F) (config : Config F)
    (hlen : ∀ g h : Fin MAX_GROUPS, (groups g).len = (groups h).len) (mem : Memory F) :
    ∃ r : Memory F,
      ApplyInteractivity sqrt groups m config mem = some r ∧
      (∀ g : Fin MAX_GROUPS,
        ((groups g).particles r).length = ((groups g).particles mem).length ∧
        ((groups g).particles r).map Particle.color =
          ((groups g).particles mem).map Particle.color) ∧
      ∀ p, (r p).color = (mem p).color := by
  obtain ⟨r, hr⟩ := ApplyInteractivity_total sqrt groups m config hlen mem
  have hcol : ∀ p, (r p).color = (mem p).color :=
    ApplyInteractivity_rel (fun _ a a' => a'.color = a.color) (fun _ _ => rfl)
      (fun _ a b c hab hbc => hbc.trans hab) sqrt groups m config
      (fun _ _ _ f a => advance_color config f a) mem r hr
  refine ⟨r, hr, ?_, hcol⟩
  intro g
  constructor
  · simp only [ParticleGroup.particles, List.length_map]
  · simp only [ParticleGroup.particles, List.map_map]
    apply List.map_congr_left
    intro i _
    exact hcol _

/-- Witness for C13: three groups of one particle each. -/
theorem C13_population_fixed_witness :
    ∃ r : Memory ℝ,
      ApplyInteractivity Real.sqrt (fun g => ⟨g.val, 1⟩) (fun _ _ => 1) (mainConfig ℝ)
        (memoryOf [particleAt Red 0 0 0 0, particleAt Yellow 10 0 0 0]
          (particleAt Blue 3 4 0 0)) = some r ∧
      (∀ g : Fin MAX_GROUPS,
        ((⟨g.val, 1⟩ : ParticleGroup).particles r).length =
          ((⟨g.val, 1⟩ : ParticleGroup).particles
            (memoryOf [particleAt Red (0 : ℝ) 0 0 0, particleAt Yellow 10 0 0 0]
              (particleAt Blue 3 4 0 0))).length ∧
        ((⟨g.val, 1⟩ : ParticleGroup).particles r).map Particle.color =
          ((⟨g.val, 1⟩ : ParticleGroup).particles
            (memoryOf [particleAt Red (0 : ℝ) 0 0 0, particleAt Yellow 10 0 0 0]
              (particleAt Blue 3 4 0 0))).map Particle.color) ∧
      ∀ p, (r p).color =
        (memoryOf [particleAt Red (0 : ℝ) 0 0 0, particleAt Yellow 10 0 0 0]
          (particleAt Blue 3 4 0 0) p).color :=
  C13_population_fixed Real.sqrt (fun g => ⟨g.val, 1⟩) (fun _ _ => 1) (mainConfig ℝ)
    (fun _ _ => rfl) _

/-- Claim C18. For three groups of the same length in which every particle has
`vy = 0`, `ApplyInteractivity` returns, and in the memory it leaves every
particle of the groups still has `vy = 0` and has the `position.Y` it had. -/
theorem C18_zero_vy_freezes_Y (sqrt : F → F) (groups : ParticleGroups)
    (m : InteractivityMatrix F) (config : Config F)
    (hlen : ∀ g h : Fin MAX_GROUPS, (groups g).len = (groups h).len) (mem : Memory F)
    (hvy : ∀ (g : Fin MAX_GROUPS) (k : Nat), k < (groups g).len →
      (mem ((groups g).ptr + k)).vy = 0) :
    ∃ r : Memory F,
      ApplyInteractivity sqrt groups m config mem = some r ∧
      ∀ (g : Fin MAX_GROUPS) (k : Nat), k < (groups g).len →
        (r ((groups g).ptr + k)).vy = 0 ∧
        (r ((groups g).ptr + k)).position.Y = (mem ((groups g).ptr + k)).position.Y := by
  obtain ⟨r, hr⟩ := ApplyInteractivity_total sqrt groups m config hlen mem
  refine ⟨r, hr, ?_⟩
  intro g k hk
  exact ApplyInteractivity_rel
    (fun _ a a' => a.vy = 0 → a'.vy = 0 ∧ a'.position.Y = a.position.Y)
    (fun _ _ h => ⟨h, rfl⟩)
    (fun _ a b c hab hbc h => ⟨(hbc (hab h).1).1, ((hbc (hab h).1).2).trans (hab h).2⟩)
    sqrt groups m config (fun _ _ _ f a h => advance_vy_zero config f a h) mem r hr _
    (hvy g k hk)

/-- Witness for C18: three groups of one particle each, at rest. -/
theorem C18_zero_vy_freezes_Y_witness :
    ∃ r : Memory ℝ,
      ApplyInteractivity Real.sqrt (fun g => ⟨g.val, 1⟩) (fun _ _ => 1) (mainConfig ℝ)
        (memoryOf [particleAt Red 0 0 0 0, particleAt Yellow 10 0 0 0]
          (particleAt Blue 3 4 0 0)) = some r ∧
      ∀ (g : Fin MAX_GROUPS) (k : Nat), k < 1 →
        (r (g.val + k)).vy = 0 ∧
        (r (g.val + k)).position.Y =
          (memoryOf [particleAt Red (0 : ℝ) 0 0 0, particleAt Yellow 10 0 0 0]
            (particleAt Blue 3 4 0 0) (g.val + k)).position.Y :=
  C18_zero_vy_freezes_Y Real.sqrt (fun g => ⟨g.val, 1⟩) (fun _ _ => 1) (mainConfig ℝ)
    (fun _ _ => rfl) _
    (fun g k (hk : k < 1) => by
      have hk0 : k = 0 := by omega
      subst hk0
      fin_cases g <;> rfl)

/-- Claim C19. For a source group and a target group of the same length that
share no address, the pass returns and leaves every particle of the target
group as it was; indeed it leaves every address outside the source group as it
was.  The configuration is an argument of the pass and no part of what it
returns: no statement of `ParticleGroupsUpdate` assigns to it. -/
theorem C19_target_unchanged (sqrt : F → F) (config : Config F) (g : F)
    (gOne gTwo : ParticleGroup) (hlen : gTwo.len = gOne.len)
    (hdisj : gTwo.ptr + gTwo.len ≤ gOne.ptr ∨ gOne.ptr + gOne.len ≤ gTwo.ptr)
    (mem : Memory F) :
    ∃ r : Memory F,
      ParticleGroupsUpdate sqrt gOne gTwo g config mem = some r ∧
      (∀ k, k < gTwo.len → r (gTwo.ptr + k) = mem (gTwo.ptr + k)) ∧
      gTwo.particles r = gTwo.particles mem ∧
      ∀ p, ¬ (gOne.ptr ≤ p ∧ p < gOne.ptr + gOne.len) → r p = mem p := by
  obtain ⟨r, hr⟩ := ParticleGroupsUpdate_total sqrt config g gOne gTwo (by omega) mem
  have hframe : ∀ p, ¬ (gOne.ptr ≤ p ∧ p < gOne.ptr + gOne.len) → r p = mem p :=
    ParticleGroupsUpdate_rel
      (fun p a a' => ¬ (gOne.ptr ≤ p ∧ p < gOne.ptr + gOne.len) → a' = a)
      (fun _ _ _ => rfl) (fun _ a b c hab hbc h => (hbc h).trans (hab h))
      sqrt config g gOne gTwo (fun i hi _ _ h => absurd ⟨by omega, by omega⟩ h) mem r hr
  have htgt : ∀ k, k < gTwo.len → r (gTwo.ptr + k) = mem (gTwo.ptr + k) :=
    fun k hk => hframe _ (by omega)
  refine ⟨r, hr, htgt, ?_, hframe⟩
  simp only [ParticleGroup.particles]
  apply List.map_congr_left
  intro i hi
  exact htgt i (List.mem_range.mp hi)

/-- Witness for C19: a source group at addresses `0, 1` and a target group at
addresses `2, 3`. -/
theorem C19_target_unchanged_witness :
    ∃ r : Memory ℝ,
      ParticleGroupsUpdate Real.sqrt ⟨0, 2⟩ ⟨2, 2⟩ 1 (mainConfig ℝ)
        (memoryOf [particleAt Red 0 0 0 0, particleAt Red 1 1 0 0]
          (particleAt Yellow 3 4 0 0)) = some r ∧
      (∀ k, k < 2 → r (2 + k) =
        memoryOf [particleAt Red (0 : ℝ) 0 0 0, particleAt Red 1 1 0 0]
          (particleAt Yellow 3 4 0 0) (2 + k)) ∧
      (⟨2, 2⟩ : ParticleGroup).particles r =
        (⟨2, 2⟩ : ParticleGroup).particles
          (memoryOf [particleAt Red (0 : ℝ) 0 0 0, particleAt Red 1 1 0 0]
            (particleAt Yellow 3 4 0 0)) ∧
      ∀ p, ¬ (0 ≤ p ∧ p < 0 + 2) → r p =
        memoryOf [particleAt Red (0 : ℝ) 0 0 0, particleAt Red 1 1 0 0]
          (particleAt Yellow 3 4 0 0) p :=
  C19_target_unchanged Real.sqrt (mainConfig ℝ) 1 ⟨0, 2⟩ ⟨2, 2⟩ rfl (Or.inr (le_refl 2)) _

/-- Claim C15. A group of one particle passed as source and as target: the
particle is compared with itself at displacement `0`, the accumulators stay
`0`, and for every gravity the pass writes the particle advanced by one
sub-step under zero force. -/
theorem C15_single_self_pair (sqrt : F → F) (hsqrt : IsSqrt sqrt) (config : Config F)
    (g : F) (p : Nat) (mem : Memory F) :
    (ParticleDistanceCalculate sqrt (mem p) (mem p)).displacement = 0 ∧
    accumulate sqrt config g (mem p) (mem p) (0, 0) = (0, 0) ∧
    ParticleGroupsUpdate sqrt ⟨p, 1⟩ ⟨p, 1⟩ g config mem =
      some (Function.update mem p (advance config (0, 0) (mem p))) := by
  have hd : (ParticleDistanceCalculate sqrt (mem p) (mem p)).displacement = 0 := by
    simp only [ParticleDistanceCalculate, sub_self]
    have h0 : ((0 : F) ^ 2 + 0 ^ 2) = 0 := by norm_num
    rw [h0]
    exact (hsqrt.eq_zero_iff (le_refl 0)).mpr rfl
  have hacc : accumulate sqrt config g (mem p) (mem p) (0, 0) = (0, 0) := by
    unfold accumulate
    rw [if_neg]
    rw [hd]
    exact fun h => lt_irrefl _ h.1
  refine ⟨hd, hacc, ?_⟩
  rw [ParticleGroupsUpdate_single sqrt config g p p 1 (by decide) mem, hacc]

/-- Witness for C15 over the real numbers. -/
theorem C15_single_self_pair_witness :
    (ParticleDistanceCalculate Real.sqrt
      (memoryOf [particleAt Red (3 : ℝ) 4 1 1] (particleAt Yellow 0 0 0 0) 0)
      (memoryOf [particleAt Red (3 : ℝ) 4 1 1] (particleAt Yellow 0 0 0 0) 0)).displacement = 0 ∧
    accumulate Real.sqrt (mainConfig ℝ) 5
      (memoryOf [particleAt Red (3 : ℝ) 4 1 1] (particleAt Yellow 0 0 0 0) 0)
      (memoryOf [particleAt Red (3 : ℝ) 4 1 1] (particleAt Yellow 0 0 0 0) 0) (0, 0) = (0, 0) ∧
    ParticleGroupsUpdate Real.sqrt ⟨0, 1⟩ ⟨0, 1⟩ 5 (mainConfig ℝ)
      (memoryOf [particleAt Red (3 : ℝ) 4 1 1] (particleAt Yellow 0 0 0 0)) =
      some (Function.update
        (memoryOf [particleAt Red (3 : ℝ) 4 1 1] (particleAt Yellow 0 0 0 0)) 0
        (advance (mainConfig ℝ) (0, 0)
          (memoryOf [particleAt Red (3 : ℝ) 4 1 1] (particleAt Yellow 0 0 0 0) 0))) :=
  C15_single_self_pair Real.sqrt isSqrt_real (mainConfig ℝ) 5 0 _

end Kept

/-! ## Construction of a group -/

section Construction

variable {F : Type} [LinearOrderedField F]

/-- With a positive bound, `rand.Intn` returns a value below the bound and not
below zero. -/
theorem Rand.Intn_of_pos (n : Int) (hn : 0 < n) (r : Rand) :
    ∃ v r', Rand.Intn n r = some (v, r') ∧ 0 ≤ v ∧ v < n := by
  refine ⟨_, _, if_pos hn, Int.emod_nonneg _ (ne_of_gt hn), Int.emod_lt_of_pos _ hn⟩

/-- In an arena of positive width and height, `NewParticle` returns a particle
of the given colour, at rest, inside the arena. -/
theorem NewParticle_spec (config : Config F) (color : Color)
    (hW : 0 < config.winWidth) (hH : 0 < config.winHeight) (r : Rand) :
    ∃ q r', NewParticle config color r = some (q, r') ∧
      q.color = color ∧ q.vx = 0 ∧ q.vy = 0 ∧
      0 ≤ q.position.X ∧ q.position.X < (config.winWidth : F) ∧
      0 ≤ q.position.Y ∧ q.position.Y < (config.winHeight : F) := by
  obtain ⟨x, r1, hx, hx0, hx1⟩ := Rand.Intn_of_pos config.winWidth hW r
  obtain ⟨y, r2, hy, hy0, hy1⟩ := Rand.Intn_of_pos config.winHeight hH r1
  refine ⟨{ color := color, position := { X := (x : F), Y := (y : F) }, vx := 0, vy := 0 }, r2,
    ?_, rfl, rfl, rfl, Int.cast_nonneg.mpr hx0, Int.cast_lt.mpr hx1, Int.cast_nonneg.mpr hy0,
    Int.cast_lt.mpr hy1⟩
  simp only [NewParticle, RandomPosition, hx, hy, Option.some_bind, Option.map_some']

/-- The loop of `NewParticleGroup`: `n` rounds append `n` particles, each of
the given colour, at rest, inside the arena. -/
theorem NewParticleGroup_loop (config : Config F) (color : Color)
    (hW : 0 < config.winWidth) (hH : 0 < config.winHeight)
    (Good : Particle F → Prop)
    (hGood : ∀ q : Particle F, q.color = color → q.vx = 0 → q.vy = 0 →
      0 ≤ q.position.X → q.position.X < (config.winWidth : F) →
      0 ≤ q.position.Y → q.position.Y < (config.winHeight : F) → Good q)
    (n : Nat) :
    ∀ (i : Nat) (s : List (Particle F) × Rand), (∀ q ∈ s.1, Good q) →
      ∃ s', forLoop (fun _ s =>
          (NewParticle config color s.2).map fun particle => (s.1 ++ [particle.1], particle.2))
          i n s = some s' ∧
        s'.1.length = s.1.length + n ∧ ∀ q ∈ s'.1, Good q := by
  induction n with
  | zero =>
    intro i s hs
    exact ⟨s, rfl, rfl, hs⟩
  | succ n ih =>
    intro i s hs
    obtain ⟨q, r', hq, h1, h2, h3, h4, h5, h6, h7⟩ := NewParticle_spec config color hW hH s.2
    have hs1 : ∀ t ∈ s.1 ++ [q], Good t := by
      intro t ht
      rcases List.mem_append.mp ht with h | h
      · exact hs t h
      · rw [List.mem_singleton.mp h]
        exact hGood q h1 h2 h3 h4 h5 h6 h7
    obtain ⟨s', hs', hlen, hgood⟩ := ih (i + 1) (s.1 ++ [q], r') hs1
    refine ⟨s', ?_, ?_, hgood⟩
    · rw [forLoop_succ]
      simp only [hq, Option.map_some', Option.some_bind]
      exact hs'
    · rw [hlen, List.length_append, List.length_singleton]
      omega

/-- Claim C14. With `particlesPerGroup = n ≥ 0` and an arena of positive width
and height, for every colour and every random source, `NewParticleGroup`
returns a group of exactly `n` particles, each of the given colour, with
`vx = 0` and `vy = 0`, at a position with `0 ≤ X < winWidth` and
`0 ≤ Y < winHeight`. -/
theorem C14_NewParticleGroup_population (config : Config F) (color : Color) (n : Nat)
    (hn : config.particlesPerGroup = (n : Int))
    (hW : 0 < config.winWidth) (hH : 0 < config.winHeight) (r : Rand) :
    ∃ (group : List (Particle F)) (r' : Rand),
      NewParticleGroup config color r = some (group, r') ∧
      group.length = n ∧
      ∀ q ∈ group, q.color = color ∧ q.vx = 0 ∧ q.vy = 0 ∧
        0 ≤ q.position.X ∧ q.position.X < (config.winWidth : F) ∧
        0 ≤ q.position.Y ∧ q.position.Y < (config.winHeight : F) := by
  obtain ⟨s', hs', hlen, hgood⟩ := NewParticleGroup_loop config color hW hH
    (fun q => q.color = color ∧ q.vx = 0 ∧ q.vy = 0 ∧
      0 ≤ q.position.X ∧ q.position.X < (config.winWidth : F) ∧
      0 ≤ q.position.Y ∧ q.position.Y < (config.winHeight : F))
    (fun q h1 h2 h3 h4 h5 h6 h7 => ⟨h1, h2, h3, h4, h5, h6, h7⟩) n 0 ([], r)
    (fun q hq => absurd hq (List.not_mem_nil q))
  refine ⟨s'.1, s'.2, ?_, by simpa using hlen, hgood⟩
  unfold NewParticleGroup
  rw [hn, Int.toNat_ofNat]
  exact hs'

/-- Witness for C14: the configuration of `main`, with `300` particles in an
arena of `800` by `450`. -/
theorem C14_NewParticleGroup_population_witness :
    ∃ (group : List (Particle ℝ)) (r' : Rand),
      NewParticleGroup (mainConfig ℝ) Red ⟨fun k => 7 * k + 3, 0⟩ = some (group, r') ∧
      group.length = 300 ∧
      ∀ q ∈ group, q.color = Red ∧ q.vx = 0 ∧ q.vy = 0 ∧
        0 ≤ q.position.X ∧ q.position.X < ((mainConfig ℝ).winWidth : ℝ) ∧
        0 ≤ q.position.Y ∧ q.position.Y < ((mainConfig ℝ).winHeight : ℝ) :=
  C14_NewParticleGroup_population (mainConfig ℝ) Red 300 rfl (by decide) (by decide) _

/-- Claim C17 fails: with `particlesPerGroup = -1` in the configuration of
`main`, `NewParticleGroup` reports no error; it returns the empty group and
draws no random number. -/
theorem C17_negative_count_counterexample :
    ({ mainConfig ℝ with particlesPerGroup := -1 } : Config ℝ).particlesPerGroup < 0 ∧
    NewParticleGroup ({ mainConfig ℝ with particlesPerGroup := -1 } : Config ℝ) Red
      ⟨fun k => 7 * k + 3, 0⟩ = some ([], ⟨fun k => 7 * k + 3, 0⟩) :=
  ⟨by decide, rfl⟩

/-- Claim C17, amended. For every configuration with `particlesPerGroup < 0`,
`NewParticleGroup` reports no error: the loop runs no round, and the function
returns the empty group and the random source as it was. -/
theorem C17_negative_count_empty_group (config : Config F) (color : Color) (r : Rand)
    (hneg : config.particlesPerGroup < 0) :
    NewParticleGroup config color r = some ([], r) := by
  unfold NewParticleGroup
  rw [Int.toNat_of_nonpos (le_of_lt hneg)]
  rfl

/-- Witness for the amended C17: `particlesPerGroup = -5`. -/
theorem C17_negative_count_empty_group_witness :
    NewParticleGroup ({ mainConfig ℝ with particlesPerGroup := -5 } : Config ℝ) Yellow
      ⟨fun k => k, 0⟩ = some ([], ⟨fun k => k, 0⟩) :=
  C17_negative_count_empty_group _ Yellow _ (by decide)

end Construction

/-! ## Conversion to pixel coordinates -/

section Pixels

variable {F : Type} [LinearOrderedField F] [FloorRing F]

/-- The integral part is the integer between zero and `x` that is less than
one away from `x`. -/
theorem discardFraction_spec (x : F) :
    |((discardFraction x : Int) : F)| ≤ |x| ∧ |x - (discardFraction x : Int)| < 1 := by
  unfold discardFraction
  by_cases hx : 0 ≤ x
  · rw [if_pos hx]
    have h0 : (0 : F) ≤ (⌊x⌋ : Int) := Int.cast_nonneg.mpr (Int.floor_nonneg.mpr hx)
    have h1 : ((⌊x⌋ : Int) : F) ≤ x := Int.floor_le x
    have h2 : x < (⌊x⌋ : Int) + 1 := Int.lt_floor_add_one x
    rw [abs_of_nonneg h0, abs_of_nonneg hx, abs_of_nonneg (sub_nonneg.mpr h1)]
    exact ⟨h1, by linarith⟩
  · rw [if_neg hx]
    have hx' : x < 0 := not_le.mp hx
    have h0 : ((⌈x⌉ : Int) : F) ≤ 0 := by
      have : ⌈x⌉ ≤ 0 := Int.ceil_le.mpr (by simpa using le_of_lt hx')
      exact_mod_cast this
    have h1 : x ≤ (⌈x⌉ : Int) := Int.le_ceil x
    have h2 : ((⌈x⌉ : Int) : F) < x + 1 := Int.ceil_lt_add_one x
    rw [abs_of_nonpos h0, abs_of_neg hx', abs_of_nonpos (sub_nonpos.mpr h1)]
    exact ⟨by linarith, by linarith⟩

/-- The integral part of a number within the 32-bit range is within it. -/
theorem discardFraction_bounds (x : F) (hlo : -2147483648 ≤ x) (hhi : x ≤ 2147483647) :
    -2147483648 ≤ discardFraction x ∧ discardFraction x ≤ 2147483647 := by
  unfold discardFraction
  by_cases hx : 0 ≤ x
  · rw [if_pos hx]
    have h0 : 0 ≤ ⌊x⌋ := Int.floor_nonneg.mpr hx
    have h1 : ((⌊x⌋ : Int) : F) ≤ ((2147483647 : Int) : F) := by
      push_cast
      exact le_trans (Int.floor_le x) hhi
    exact ⟨by omega, Int.cast_le.mp h1⟩
  · rw [if_neg hx]
    have h0 : ⌈x⌉ ≤ 0 := Int.ceil_le.mpr (by simpa using le_of_lt (not_le.mp hx))
    have h1 : ((-2147483648 : Int) : F) ≤ ((⌈x⌉ : Int) : F) := by
      push_cast
      exact le_trans hlo (Int.le_ceil x)
    exact ⟨Int.cast_le.mp h1, by omega⟩

/-- Claim C16. For a position whose coordinates are within the 32-bit signed
range, `AsInt` returns for each coordinate its integral part, the integer
between zero and the coordinate that is less than one away from it: the
fraction is cut off, there is no rounding to nearest.  For instance
`(2.9, -2.9)` gives `(2, -2)`. -/
theorem C16_AsInt_truncates (other : F → Int) (p : Position F)
    (hX : -2147483648 ≤ p.X ∧ p.X ≤ 2147483647)
    (hY : -2147483648 ≤ p.Y ∧ p.Y ≤ 2147483647) :
    (|(((p.AsInt other).1 : Int) : F)| ≤ |p.X| ∧ |p.X - ((p.AsInt other).1 : Int)| < 1) ∧
    (|(((p.AsInt other).2 : Int) : F)| ≤ |p.Y| ∧ |p.Y - ((p.AsInt other).2 : Int)| < 1) ∧
    Position.AsInt other ({ X := 29 / 10, Y := -29 / 10 } : Position F) = (2, -2) := by
  have hconv : ∀ x : F, -2147483648 ≤ x → x ≤ 2147483647 →
      toInt32 other x = discardFraction x := by
    intro x hlo hhi
    unfold toInt32
    rw [if_pos (discardFraction_bounds x hlo hhi)]
  refine ⟨?_, ?_, ?_⟩
  · simp only [Position.AsInt, hconv p.X hX.1 hX.2]
    exact discardFraction_spec p.X
  · simp only [Position.AsInt, hconv p.Y hY.1 hY.2]
    exact discardFraction_spec p.Y
  · have hpos : discardFraction (29 / 10 : F) = 2 := by
      unfold discardFraction
      rw [if_pos (by norm_num)]
      exact Int.floor_eq_iff.mpr ⟨by norm_num, by norm_num⟩
    have hneg : discardFraction (-29 / 10 : F) = -2 := by
      unfold discardFraction
      rw [if_neg (by norm_num)]
      exact Int.ceil_eq_iff.mpr ⟨by norm_num, by norm_num⟩
    simp only [Position.AsInt, hconv (29 / 10 : F) (by norm_num) (by norm_num),
      hconv (-29 / 10 : F) (by norm_num) (by norm_num), hpos, hneg]

/-- Witness for C16 over the real numbers: the position `(799.5, -0.25)`. -/
theorem C16_AsInt_truncates_witness :
    (|(((Position.AsInt (fun _ => -2147483648)
        ({ X := 1599 / 2, Y := -1 / 4 } : Position ℝ)).1 : Int) : ℝ)| ≤
        |({ X := 1599 / 2, Y := -1 / 4 } : Position ℝ).X| ∧
      |({ X := 1599 / 2, Y := -1 / 4 } : Position ℝ).X -
        ((Position.AsInt (fun _ => -2147483648)
          ({ X := 1599 / 2, Y := -1 / 4 } : Position ℝ)).1 : Int)| < 1) ∧
    (|(((Position.AsInt (fun _ => -2147483648)
        ({ X := 1599 / 2, Y := -1 / 4 } : Position ℝ)).2 : Int) : ℝ)| ≤
        |({ X := 1599 / 2, Y := -1 / 4 } : Position ℝ).Y| ∧
      |({ X := 1599 / 2, Y := -1 / 4 } : Position ℝ).Y -
        ((Position.AsInt (fun _ => -2147483648)
          ({ X := 1599 / 2, Y := -1 / 4 } : Position ℝ)).2 : Int)| < 1) ∧
    Position.AsInt (fun _ => -2147483648) ({ X := 29 / 10, Y := -29 / 10 } : Position ℝ) =
      (2, -2) :=
  C16_AsInt_truncates (fun _ => -2147483648) ({ X := 1599 / 2, Y := -1 / 4 } : Position ℝ)
    ⟨by norm_num, by norm_num⟩ ⟨by norm_num, by norm_num⟩

end Pixels

/-! ## The step with a division that traps -/

section Checked

variable {F : Type} [LinearOrderedField F]

/-- Under the guard of lines 107-111 the division that traps does not trap:
the comparison with it computes what `accumulate` computes. -/
theorem accumulateChecked_eq (sqrt : F → F) (config : Config F) (gravity : F)
    (a b : Particle F) (f : F × F) :
    accumulateChecked sqrt config gravity a b f =
      some (accumulate sqrt config gravity a b f) := by
  unfold accumulateChecked accumulate
  by_cases h : 0 < (ParticleDistanceCalculate sqrt a b).displacement ∧
      (ParticleDistanceCalculate sqrt a b).displacement < config.particleActionDistance
  · simp only [if_pos h, checkedDiv, if_pos h.1, Option.map_some']
  · simp only [if_neg h]

/-- The pass with the division that traps is the pass. -/
theorem ParticleGroupsUpdateChecked_eq (sqrt : F → F) (gOne gTwo : ParticleGroup)
    (gravity : F) (config : Config F) (mem : Memory F) :
    ParticleGroupsUpdateChecked sqrt gOne gTwo gravity config mem =
      ParticleGroupsUpdate sqrt gOne gTwo gravity config mem := by
  have h : accumulateChecked sqrt config gravity =
      fun a b f => some (accumulate sqrt config gravity a b f) := by
    funext a b f
    exact accumulateChecked_eq sqrt config gravity a b f
  unfold ParticleGroupsUpdateChecked
  rw [h]
  rfl

/-- The step with the division that traps is the step. -/
theorem ApplyInteractivityChecked_eq (sqrt : F → F) (groups : ParticleGroups)
    (m : InteractivityMatrix F) (config : Config F) (mem : Memory F) :
    ApplyInteractivityChecked sqrt groups m config mem =
      ApplyInteractivity sqrt groups m config mem := by
  unfold ApplyInteractivityChecked ApplyInteractivity
  simp only [ParticleGroupsUpdateChecked_eq]

/-- Claim C20. For three groups of the same length, the length `0` included,
`ApplyInteractivity` returns also when an index out of range and a division
`gravity / displacement` with a displacement that is not strictly positive
are run-time errors: the step with the division that traps returns, with the
memory `ApplyInteractivity` returns.  A division at displacement `0`, as in
the comparison of a particle with itself, would trap. -/
theorem C20_step_completes (sqrt : F → F) (groups : ParticleGroups)
    (m : InteractivityMatrix F) (config : Config F)
    (hlen : ∀ g h : Fin MAX_GROUPS, (groups g).len = (groups h).len) (mem : Memory F) :
    (∃ r : Memory F,
      ApplyInteractivityChecked sqrt groups m config mem = some r ∧
      ApplyInteractivity sqrt groups m config mem = some r) ∧
    ∀ gravity : F, checkedDiv gravity 0 = none := by
  obtain ⟨r, hr⟩ := ApplyInteractivity_total sqrt groups m config hlen mem
  refine ⟨⟨r, ?_, hr⟩, fun gravity => if_neg (lt_irrefl 0)⟩
  rw [ApplyInteractivityChecked_eq, hr]

/-- Witness for C20: three groups of one particle each, so that every one of
the nine passes reads `gOne[0]` and `gTwo[0]`, the three self pairs compare a
particle with itself at displacement `0`, and the other pairs divide. -/
theorem C20_step_completes_witness :
    (∃ r : Memory ℝ,
      ApplyInteractivityChecked Real.sqrt (fun g => ⟨g.val, 1⟩) (fun _ _ => 1) (mainConfig ℝ)
        (memoryOf [particleAt Red 0 0 0 0, particleAt Yellow 10 0 0 0]
          (particleAt Blue 3 4 0 0)) = some r ∧
      ApplyInteractivity Real.sqrt (fun g => ⟨g.val, 1⟩) (fun _ _ => 1) (mainConfig ℝ)
        (memoryOf [particleAt Red 0 0 0 0, particleAt Yellow 10 0 0 0]
          (particleAt Blue 3 4 0 0)) = some r) ∧
    ∀ gravity : ℝ, checkedDiv gravity 0 = none :=
  C20_step_completes Real.sqrt (fun g => ⟨g.val, 1⟩) (fun _ _ => 1) (mainConfig ℝ)
    (fun _ _ => rfl) _

end Checked

/-! ## Rounding to `float64` -/

section Rounding

variable {F : Type} [LinearOrderedField F] [FloorRing F]

/-- An integer rounds to itself. -/
theorem roundHalfEven_intCast (z : Int) : roundHalfEven ((z : Int) : F) = z := by
  unfold roundHalfEven
  rw [Int.floor_intCast, sub_self, if_pos (by norm_num)]

/-- A number from `0` to below one half rounds to `0`. -/
theorem roundHalfEven_of_lt_half (y : F) (h0 : 0 ≤ y) (h1 : y < 1 / 2) :
    roundHalfEven y = 0 := by
  have hfl : ⌊y⌋ = 0 := Int.floor_eq_iff.mpr ⟨by simpa using h0, by norm_num; linarith⟩
  unfold roundHalfEven
  rw [hfl, Int.cast_zero, sub_zero, if_pos h1]

theorem roundHalfEven_nonneg (y : F) (h0 : 0 ≤ y) : 0 ≤ roundHalfEven y := by
  have hfl : 0 ≤ ⌊y⌋ := Int.floor_nonneg.mpr h0
  unfold roundHalfEven
  split_ifs <;> omega

/-- Rounding to the nearest integer, ties to even, commutes with negation. -/
theorem roundHalfEven_neg (y : F) : roundHalfEven (-y) = -roundHalfEven y := by
  by_cases hint : (⌊y⌋ : F) = y
  · rw [← hint, ← Int.cast_neg, roundHalfEven_intCast, roundHalfEven_intCast]
  · have hlt : (⌊y⌋ : F) < y := lt_of_le_of_ne (Int.floor_le y) hint
    have hup : y < (⌊y⌋ : F) + 1 := Int.lt_floor_add_one y
    have hfl : ⌊-y⌋ = -(⌊y⌋ + 1) := by
      apply Int.floor_eq_iff.mpr
      push_cast
      constructor <;> linarith
    unfold roundHalfEven
    rw [hfl]
    push_cast
    rcases lt_trichotomy (y - (⌊y⌋ : F)) (1 / 2) with h | h | h
    · rw [if_pos h, if_neg (by linarith), if_pos (by linarith)]
      ring
    · have e1 : ¬ (-y - (-((⌊y⌋ : F) + 1)) < 1 / 2) := by linarith
      have e2 : ¬ (1 / 2 < -y - (-((⌊y⌋ : F) + 1))) := by linarith
      have e3 : ¬ (y - (⌊y⌋ : F) < 1 / 2) := by linarith
      have e4 : ¬ (1 / 2 < y - (⌊y⌋ : F)) := by linarith
      rw [if_neg e1, if_neg e2, if_neg e3, if_neg e4]
      split_ifs <;> omega
    · rw [if_pos (by linarith), if_neg (by linarith), if_pos h]

theorem round64_zero : round64 (0 : F) = 0 := if_pos rfl

theorem round64_neg (x : F) : round64 (-x) = -round64 x := by
  by_cases hx : x = 0
  · subst hx
    simp [round64_zero]
  · have hx' : -x ≠ 0 := neg_ne_zero.mpr hx
    unfold round64
    rw [if_neg hx, if_neg hx', abs_neg]
    simp only [neg_div, roundHalfEven_neg, Int.cast_neg, neg_mul]

theorem round64_nonneg (x : F) (hx : 0 ≤ x) : 0 ≤ round64 x := by
  unfold round64
  split_ifs with h0
  · exact le_refl 0
  · have hq : (0 : F) < 2 ^ (max (Int.log 2 |x|) (-1022) - 52) := zpow_pos (by norm_num) _
    exact mul_nonneg (Int.cast_nonneg.mpr (roundHalfEven_nonneg _ (div_nonneg hx hq.le))) hq.le

/-- The rounding to `float64` is a rounding. -/
theorem round64_isRounding : IsRounding (round64 : F → F) :=
  ⟨round64_neg, round64_nonneg⟩

/-- A power of two with an exponent from `-1022` on is a `float64`. -/
theorem round64_two_zpow (z : Int) (hz : -1022 ≤ z) : round64 ((2 : F) ^ z) = 2 ^ z := by
  have hpos : (0 : F) < 2 ^ z := zpow_pos (by norm_num) z
  have hlog : Int.log 2 |(2 : F) ^ z| = z := by
    rw [abs_of_pos hpos]
    have := Int.log_zpow (R := F) (b := 2) (by norm_num) z
    simpa using this
  unfold round64
  rw [if_neg (ne_of_gt hpos), hlog, max_eq_left hz]
  have h52 : ((4503599627370496 : Int) : F) = 2 ^ (52 : Int) := by norm_num
  have hdiv : (2 : F) ^ z / 2 ^ (z - 52) = ((4503599627370496 : Int) : F) := by
    rw [h52, ← zpow_sub₀ (by norm_num : (2 : F) ≠ 0)]
    congr 1
    omega
  simp only []
  rw [hdiv, roundHalfEven_intCast, h52, ← zpow_add₀ (by norm_num : (2 : F) ≠ 0)]
  congr 1
  omega

/-- A non-negative number below half of the least positive `float64` rounds
to zero. -/
theorem round64_underflow (x : F) (h0 : 0 ≤ x) (h1 : x < 2 ^ (-1075 : Int)) :
    round64 x = 0 := by
  by_cases hx : x = 0
  · rw [hx, round64_zero]
  · have hpos : 0 < x := lt_of_le_of_ne h0 (Ne.symm hx)
    have hlog : Int.log 2 |x| < -1075 := by
      rw [abs_of_pos hpos]
      exact (Int.lt_zpow_iff_log_lt (by norm_num) hpos).mp (by simpa using h1)
    unfold round64
    rw [if_neg hx, max_eq_right (by omega)]
    have hq : (0 : F) < 2 ^ ((-1022 : Int) - 52) := zpow_pos (by norm_num) _
    have hsmall : x / 2 ^ ((-1022 : Int) - 52) < 1 / 2 := by
      rw [div_lt_iff₀ hq]
      have : (1 / 2 : F) * 2 ^ ((-1022 : Int) - 52) = 2 ^ (-1075 : Int) := by
        rw [one_div, ← zpow_neg_one, ← zpow_add₀ (by norm_num : (2 : F) ≠ 0)]
        norm_num
      rw [this]
      exact h1
    simp only []
    rw [roundHalfEven_of_lt_half _ (div_nonneg h0 hq.le) hsmall]
    simp

/-- A natural number below `2 ^ 53` is a `float64`. -/
theorem round64_natCast (n : Nat) (hn : n < 2 ^ 53) : round64 ((n : Nat) : F) = n := by
  by_cases h0 : n = 0
  · subst h0
    simp [round64_zero]
  · have hpos : (0 : F) < n := Nat.cast_pos.mpr (Nat.pos_of_ne_zero h0)
    have hL : Nat.log 2 n < 53 := (Nat.lt_pow_iff_log_lt (by norm_num) h0).mp hn
    obtain ⟨k, hk⟩ : ∃ k : Nat, Nat.log 2 n + k = 52 := ⟨52 - Nat.log 2 n, by omega⟩
    have hlog : Int.log 2 |((n : Nat) : F)| = (Nat.log 2 n : Int) := by
      rw [abs_of_pos hpos, Int.log_natCast]
    have he : (Nat.log 2 n : Int) - 52 = -(k : Int) := by omega
    unfold round64
    simp only []
    rw [if_neg (ne_of_gt hpos), hlog, max_eq_left (by omega), he]
    have h2 : (0 : F) < 2 ^ k := pow_pos (by norm_num) k
    have hdiv : ((n : Nat) : F) / 2 ^ (-(k : Int)) = (((n * 2 ^ k : Nat) : Int) : F) := by
      rw [zpow_neg, zpow_natCast, div_inv_eq_mul]
      push_cast
      rfl
    rw [hdiv, roundHalfEven_intCast, zpow_neg, zpow_natCast]
    push_cast
    field_simp

end Rounding

/-- Exact arithmetic is a rounding. -/
theorem id_isRounding {F : Type} [LinearOrderedField F] : IsRounding (id : F → F) :=
  ⟨fun _ => rfl, fun _ h => h⟩

/-- A rounding fixes zero. -/
theorem IsRounding.zero {F : Type} [LinearOrderedField F] {rnd : F → F}
    (h : IsRounding rnd) : rnd 0 = 0 := by
  have h0 := h.1 0
  rw [neg_zero] at h0
  linarith

/-! ## The distance calculator in `float64` -/

section DistanceRounded

variable {F : Type} [LinearOrderedField F]

/-- Claim C7 fails in `float64`: for particles at `(2^-600, 0)` and `(0, 0)`
the difference `dx = 2^-600` is exact, its square `2^-1200` is below half of
the least positive `float64` and rounds to `0`, and the displacement is
`sqrt (0 + 0) = 0` although the positions differ. -/
theorem C7_underflow_counterexample :
    (ParticleDistanceCalculateRounded round64 Real.sqrt
      (particleAt Red ((2 : ℝ) ^ (-600 : Int)) 0 0 0)
      (particleAt Yellow 0 0 0 0)).displacement = 0 ∧
    (particleAt Red ((2 : ℝ) ^ (-600 : Int)) 0 0 0).position.X ≠
      (particleAt Yellow (0 : ℝ) 0 0 0).position.X := by
  have hdx : round64 ((2 : ℝ) ^ (-600 : Int) - 0) = 2 ^ (-600 : Int) := by
    rw [sub_zero]
    exact round64_two_zpow (-600) (by norm_num)
  have hsq : round64 (((2 : ℝ) ^ (-600 : Int)) ^ 2) = 0 := by
    apply round64_underflow _ (sq_nonneg _)
    rw [← zpow_natCast, ← zpow_mul]
    exact zpow_lt_zpow_right₀ (by norm_num) (by norm_num)
  have hdy : round64 ((0 : ℝ) - 0) = 0 := by rw [sub_zero, round64_zero]
  have h0 : round64 ((0 : ℝ) ^ 2) = 0 := by
    rw [zero_pow (by norm_num), round64_zero]
  constructor
  · simp only [ParticleDistanceCalculateRounded, particleAt, hdx, hsq, hdy, h0, add_zero,
      round64_zero, Real.sqrt_zero]
  · simp only [particleAt]
    exact ne_of_gt (zpow_pos (by norm_num) _)

/-- Claim C7, amended. In floating-point arithmetic with any rounding, the
displacement is non-negative, it is `0` when the two particles have the same
`X` and the same `Y`, and the displacement of a particle from itself is `0`.
In exact arithmetic it is moreover `0` only when the two particles have the
same `X` and the same `Y`. -/
theorem C7_displacement_nonneg_zero_of_same (rnd sqrt : F → F) (hrnd : IsRounding rnd)
    (hsqrt : IsSqrt sqrt) (a b : Particle F) :
    0 ≤ (ParticleDistanceCalculateRounded rnd sqrt a b).displacement ∧
    (a.position.X = b.position.X ∧ a.position.Y = b.position.Y →
      (ParticleDistanceCalculateRounded rnd sqrt a b).displacement = 0) ∧
    (ParticleDistanceCalculateRounded rnd sqrt a a).displacement = 0 ∧
    ((ParticleDistanceCalculate sqrt a b).displacement = 0 ↔
      a.position.X = b.position.X ∧ a.position.Y = b.position.Y) := by
  have hsame : ∀ c d : Particle F, c.position.X = d.position.X ∧ c.position.Y = d.position.Y →
      (ParticleDistanceCalculateRounded rnd sqrt c d).displacement = 0 := by
    intro c d h
    simp only [ParticleDistanceCalculateRounded, h.1, h.2, sub_self, hrnd.zero]
    have h0 : ((0 : F) ^ 2) = 0 := by norm_num
    rw [h0, hrnd.zero, add_zero, hrnd.zero, (hsqrt.eq_zero_iff (le_refl 0)).mpr rfl, hrnd.zero]
  refine ⟨?_, hsame a b, hsame a a ⟨rfl, rfl⟩, (displacement_exact_zero_iff sqrt hsqrt a b).2.1⟩
  simp only [ParticleDistanceCalculateRounded]
  apply hrnd.2
  apply hsqrt.nonneg
  apply hrnd.2
  exact add_nonneg (hrnd.2 _ (sq_nonneg _)) (hrnd.2 _ (sq_nonneg _))

/-- Witness for the amended C7 in `float64` over the real numbers: particles
at `(0, 0)` and `(3, 4)`. -/
theorem C7_displacement_nonneg_zero_of_same_witness :
    0 ≤ (ParticleDistanceCalculateRounded round64 Real.sqrt (particleAt Red (0 : ℝ) 0 0 0)
      (particleAt Yellow 3 4 0 0)).displacement ∧
    ((particleAt Red (0 : ℝ) 0 0 0).position.X = (particleAt Yellow (3 : ℝ) 4 0 0).position.X ∧
      (particleAt Red (0 : ℝ) 0 0 0).position.Y = (particleAt Yellow (3 : ℝ) 4 0 0).position.Y →
      (ParticleDistanceCalculateRounded round64 Real.sqrt (particleAt Red (0 : ℝ) 0 0 0)
        (particleAt Yellow 3 4 0 0)).displacement = 0) ∧
    (ParticleDistanceCalculateRounded round64 Real.sqrt (particleAt Red (0 : ℝ) 0 0 0)
      (particleAt Red 0 0 0 0)).displacement = 0 ∧
    ((ParticleDistanceCalculate Real.sqrt (particleAt Red (0 : ℝ) 0 0 0)
      (particleAt Yellow 3 4 0 0)).displacement = 0 ↔
      (particleAt Red (0 : ℝ) 0 0 0).position.X = (particleAt Yellow (3 : ℝ) 4 0 0).position.X ∧
      (particleAt Red (0 : ℝ) 0 0 0).position.Y =
        (particleAt Yellow (3 : ℝ) 4 0 0).position.Y) :=
  C7_displacement_nonneg_zero_of_same round64 Real.sqrt round64_isRounding isSqrt_real
    (particleAt Red 0 0 0 0) (particleAt Yellow 3 4 0 0)

end DistanceRounded

/-! ## Passes over a given comparison and update in which no force acts -/

section NoForceWith

variable {F : Type} [LinearOrderedField F]

/-- A sub-step with both indices in range whose comparison leaves the zero
accumulators at zero. -/
theorem subStepWith_noForce (acc : Particle F → Particle F → F × F → Option (F × F))
    (adv : F × F → Particle F → Particle F)
    (hno : ∀ a b : Particle F, acc a b (0, 0) = some (0, 0))
    (gOne gTwo : ParticleGroup) {i j : Nat} (hi : i < gOne.len) (hj : j < gTwo.len)
    (mem : Memory F) :
    subStepWith acc adv gOne gTwo i j (mem, 0, 0) =
      some (Function.update mem (gOne.ptr + i) (adv (0, 0) (mem (gOne.ptr + i))), 0, 0) := by
  simp only [subStepWith, index_of_lt, hi, hj, Option.some_bind, hno]

theorem innerLoopWith_noForce (acc : Particle F → Particle F → F × F → Option (F × F))
    (adv : F × F → Particle F → Particle F)
    (hno : ∀ a b : Particle F, acc a b (0, 0) = some (0, 0))
    (gOne gTwo : ParticleGroup) {i : Nat} (hi : i < gOne.len) (n : Nat) :
    ∀ (j : Nat) (mem : Memory F), j + n ≤ gTwo.len →
      forLoop (subStepWith acc adv gOne gTwo i) j n (mem, 0, 0) =
        some (Function.update mem (gOne.ptr + i)
          ((adv (0, 0))^[n] (mem (gOne.ptr + i))), 0, 0) := by
  induction n with
  | zero =>
    intro j mem _
    simp [forLoop]
  | succ n ih =>
    intro j mem hj
    rw [forLoop_succ, subStepWith_noForce acc adv hno gOne gTwo hi (by omega),
      Option.some_bind, ih (j + 1) _ (by omega)]
    simp only [Function.update_same, Function.update_idem, Function.iterate_succ_apply]

theorem outerLoopWith_noForce (acc : Particle F → Particle F → F × F → Option (F × F))
    (adv : F × F → Particle F → Particle F)
    (hno : ∀ a b : Particle F, acc a b (0, 0) = some (0, 0))
    (gOne gTwo : ParticleGroup) (hlen : gOne.len ≤ gTwo.len) (n : Nat) :
    ∀ (i : Nat) (mem : Memory F), i + n ≤ gOne.len →
      forLoop (sourceStepWith acc adv gOne gTwo gOne.len) i n mem =
        some (fun p => if gOne.ptr + i ≤ p ∧ p < gOne.ptr + i + n then
          (adv (0, 0))^[gOne.len] (mem p) else mem p) := by
  induction n with
  | zero =>
    intro i mem _
    rw [forLoop_zero]
    congr 1
    funext p
    rw [if_neg (by omega)]
  | succ n ih =>
    intro i mem hi
    rw [forLoop_succ]
    have hstep : sourceStepWith acc adv gOne gTwo gOne.len i mem =
        some (Function.update mem (gOne.ptr + i)
          ((adv (0, 0))^[gOne.len] (mem (gOne.ptr + i)))) := by
      unfold sourceStepWith
      rw [innerLoopWith_noForce acc adv hno gOne gTwo (by omega) gOne.len 0 mem (by omega)]
      rfl
    rw [hstep, Option.some_bind, ih (i + 1) _ (by omega)]
    congr 1
    funext p
    by_cases hp : p = gOne.ptr + i
    · subst hp
      rw [if_neg (by omega), if_pos (by omega), Function.update_same]
    · rw [Function.update_noteq hp]
      by_cases hq : gOne.ptr + (i + 1) ≤ p ∧ p < gOne.ptr + (i + 1) + n
      · rw [if_pos hq, if_pos (by omega)]
      · rw [if_neg hq, if_neg (by omega)]

/-- When the comparison leaves the zero accumulators at zero and the target
group is at least as long as the source group, the pass applies the update
under zero force `gOne.len` times to every source particle, and changes
nothing else. -/
theorem passWith_noForce (acc : Particle F → Particle F → F × F → Option (F × F))
    (adv : F × F → Particle F → Particle F)
    (hno : ∀ a b : Particle F, acc a b (0, 0) = some (0, 0))
    (gOne gTwo : ParticleGroup) (hlen : gOne.len ≤ gTwo.len) (mem : Memory F) :
    passWith acc adv gOne gTwo mem =
      some (fun p => if gOne.ptr ≤ p ∧ p < gOne.ptr + gOne.len then
        (adv (0, 0))^[gOne.len] (mem p) else mem p) := by
  have h := outerLoopWith_noForce acc adv hno gOne gTwo hlen gOne.len 0 mem (by omega)
  simpa [passWith] using h

/-- With gravity zero the comparison in floating-point arithmetic leaves the
zero accumulators at zero. -/
theorem accumulateRounded_gravity_zero (rnd sqrt : F → F) (hrnd : IsRounding rnd)
    (config : Config F) (a b : Particle F) :
    accumulateRounded rnd sqrt config 0 a b (0, 0) = (0, 0) := by
  unfold accumulateRounded
  simp only [zero_div, hrnd.zero, zero_mul, add_zero, ite_self]

/-- With gravity zero and a target group as long as the source group, the pass
in floating-point arithmetic is `gOne.len` sub-steps under zero force on
every source particle. -/
theorem ParticleGroupsUpdateRounded_gravity_zero (rnd sqrt : F → F) (hrnd : IsRounding rnd)
    (config : Config F) (gOne gTwo : ParticleGroup) (hlen : gOne.len ≤ gTwo.len)
    (mem : Memory F) :
    ParticleGroupsUpdateRounded rnd sqrt gOne gTwo 0 config mem =
      some (fun p => if gOne.ptr ≤ p ∧ p < gOne.ptr + gOne.len then
        (advanceRounded rnd config (0, 0))^[gOne.len] (mem p) else mem p) :=
  passWith_noForce _ _
    (fun a b => by rw [accumulateRounded_gravity_zero rnd sqrt hrnd config a b])
    gOne gTwo hlen mem

/-- With the rounding `id` the distance calculator in floating-point
arithmetic is the distance calculator in exact arithmetic. -/
theorem ParticleDistanceCalculateRounded_id (sqrt : F → F) (a b : Particle F) :
    ParticleDistanceCalculateRounded id sqrt a b = ParticleDistanceCalculate sqrt a b := rfl

theorem accumulateRounded_id (sqrt : F → F) (config : Config F) (gravity : F)
    (a b : Particle F) (f : F × F) :
    accumulateRounded id sqrt config gravity a b f = accumulate sqrt config gravity a b f := rfl

theorem advanceRounded_id (config : Config F) (f : F × F) (a : Particle F) :
    advanceRounded id config f a = advance config f a := rfl

/-- With the rounding `id` the pass in floating-point arithmetic is the pass
in exact arithmetic. -/
theorem ParticleGroupsUpdateRounded_id (sqrt : F → F) (gOne gTwo : ParticleGroup)
    (gravity : F) (config : Config F) (mem : Memory F) :
    ParticleGroupsUpdateRounded id sqrt gOne gTwo gravity config mem =
      ParticleGroupsUpdate sqrt gOne gTwo gravity config mem := rfl

end NoForceWith

/-! ## The bounce at the right edge in `float64` -/

section BounceRounded

variable {F : Type} [LinearOrderedField F]

/-- The position a sub-step under zero force reaches along x. -/
theorem advanceRounded_position_X (rnd : F → F) (config : Config F) (a : Particle F) :
    (advanceRounded rnd config (0, 0) a).position.X =
      rnd (a.position.X + damp rnd config a.vx) := by
  simp only [advanceRounded, damp]
  split_ifs <;> rfl

/-- The x-velocity after a sub-step under zero force: the damped velocity,
reversed when the sub-step ends below `0` or above the width. -/
theorem advanceRounded_vx (rnd : F → F) (config : Config F) (a : Particle F) :
    (advanceRounded rnd config (0, 0) a).vx =
      (-1) ^ (if (advanceRounded rnd config (0, 0) a).position.X < 0 ∨
          (advanceRounded rnd config (0, 0) a).position.X > (config.winWidth : F)
        then 1 else 0) * damp rnd config a.vx := by
  rw [advanceRounded_position_X]
  simp only [advanceRounded, damp]
  split_ifs <;> simp

theorem damp_neg (rnd : F → F) (hrnd : IsRounding rnd) (config : Config F) (v : F) :
    damp rnd config (-v) = -damp rnd config v := by
  unfold damp
  rw [add_zero, add_zero, hrnd.1, neg_mul, hrnd.1]

theorem damp_nonneg (rnd : F → F) (hrnd : IsRounding rnd) (config : Config F)
    (hk : 0 < config.particleVelocityFactor) (v : F) (hv : 0 ≤ v) :
    0 ≤ damp rnd config v := by
  unfold damp
  rw [add_zero]
  exact hrnd.2 _ (mul_nonneg (hrnd.2 _ hv) hk.le)

theorem damp_neg_one_pow_mul (rnd : F → F) (hrnd : IsRounding rnd) (config : Config F)
    (m : Nat) (v : F) :
    damp rnd config ((-1) ^ m * v) = (-1) ^ m * damp rnd config v := by
  rcases Nat.even_or_odd m with h | h
  · rw [h.neg_one_pow, one_mul, one_mul]
  · rw [h.neg_one_pow, neg_one_mul, neg_one_mul, damp_neg rnd hrnd]

theorem damp_iterate_neg_one_pow_mul (rnd : F → F) (hrnd : IsRounding rnd) (config : Config F)
    (m n : Nat) :
    ∀ v : F, (damp rnd config)^[n] ((-1) ^ m * v) = (-1) ^ m * (damp rnd config)^[n] v := by
  induction n with
  | zero => intro v; rfl
  | succ n ih =>
    intro v
    rw [Function.iterate_succ_apply, Function.iterate_succ_apply,
      damp_neg_one_pow_mul rnd hrnd, ih]

theorem damp_iterate_nonneg (rnd : F → F) (hrnd : IsRounding rnd) (config : Config F)
    (hk : 0 < config.particleVelocityFactor) (n : Nat) :
    ∀ v : F, 0 ≤ v → 0 ≤ (damp rnd config)^[n] v := by
  induction n with
  | zero => intro v hv; exact hv
  | succ n ih =>
    intro v hv
    rw [Function.iterate_succ_apply]
    exact ih _ (damp_nonneg rnd hrnd config hk v hv)

/-- After `n` sub-steps under zero force the x-velocity is the velocity damped
`n` times, with one change of sign for every sub-step that ended below `0` or
above the width. -/
theorem advanceRounded_iterate_vx (rnd : F → F) (hrnd : IsRounding rnd) (config : Config F)
    (n : Nat) :
    ∀ a : Particle F, ((advanceRounded rnd config (0, 0))^[n] a).vx =
      (-1) ^ reversals rnd config n a * (damp rnd config)^[n] a.vx := by
  induction n with
  | zero =>
    intro a
    simp [reversals]
  | succ n ih =>
    intro a
    rw [Function.iterate_succ_apply, ih, advanceRounded_vx,
      damp_iterate_neg_one_pow_mul rnd hrnd, Function.iterate_succ_apply, ← mul_assoc,
      ← pow_add]
    congr 2
    simp only [reversals]
    omega

/-- The x-velocity after a sub-step in exact arithmetic. -/
theorem advance_vx (config : Config F) (f : F × F) (a : Particle F) :
    (advance config f a).vx =
      if a.position.X + (a.vx + f.1) * config.particleVelocityFactor < 0 ∨
          a.position.X + (a.vx + f.1) * config.particleVelocityFactor > (config.winWidth : F)
        then -((a.vx + f.1) * config.particleVelocityFactor)
        else (a.vx + f.1) * config.particleVelocityFactor := by
  simp only [advance]
  split_ifs <;> simp

/-- In exact arithmetic with a velocity factor between `0` and `1`, a particle
beyond the width that would not come back below it by its own velocity is, one
sub-step under zero force later, again such a particle, with its x-velocity
damped and reversed. -/
theorem advance_beyond_width (config : Config F)
    (hk0 : 0 < config.particleVelocityFactor) (hk1 : config.particleVelocityFactor < 1)
    (a : Particle F)
    (hJ : (config.winWidth : F) < a.position.X ∧
      0 ≤ a.position.X - (config.winWidth : F) + a.vx) :
    ((config.winWidth : F) < (advance config (0, 0) a).position.X ∧
      0 ≤ (advance config (0, 0) a).position.X - (config.winWidth : F) +
        (advance config (0, 0) a).vx) ∧
    (advance config (0, 0) a).vx = -config.particleVelocityFactor * a.vx := by
  have hmove : (config.winWidth : F) <
      a.position.X + (a.vx + 0) * config.particleVelocityFactor := by
    rw [add_zero]
    rcases le_or_lt 0 a.vx with hv | hv
    · have := mul_nonneg hv hk0.le
      linarith [hJ.1]
    · have : a.vx < a.vx * config.particleVelocityFactor := by nlinarith
      linarith [hJ.2]
  have hvx : (advance config (0, 0) a).vx = -config.particleVelocityFactor * a.vx := by
    rw [advance_vx, if_pos (Or.inr hmove)]
    ring
  refine ⟨⟨?_, ?_⟩, hvx⟩
  · rw [advance_position]
    exact hmove
  · rw [hvx, advance_position]
    simp only []
    linarith [hJ.1]

theorem advance_iterate_beyond_width (config : Config F)
    (hk0 : 0 < config.particleVelocityFactor) (hk1 : config.particleVelocityFactor < 1)
    (m : Nat) :
    ∀ a : Particle F, ((config.winWidth : F) < a.position.X ∧
        0 ≤ a.position.X - (config.winWidth : F) + a.vx) →
      ((advance config (0, 0))^[m] a).vx = (-config.particleVelocityFactor) ^ m * a.vx := by
  induction m with
  | zero => intro a _; simp
  | succ m ih =>
    intro a hJ
    obtain ⟨hJ', hvx⟩ := advance_beyond_width config hk0 hk1 a hJ
    rw [Function.iterate_succ_apply, ih _ hJ', hvx, pow_succ]
    ring

/-- In exact arithmetic with a velocity factor between `0` and `1`, a particle
at the width with a positive x-velocity has, after `n + 1` sub-steps under zero
force, its x-velocity multiplied by `(-particleVelocityFactor) ^ (n + 1)`. -/
theorem advance_iterate_at_width (config : Config F)
    (hk0 : 0 < config.particleVelocityFactor) (hk1 : config.particleVelocityFactor < 1)
    (a : Particle F) (hx : a.position.X = (config.winWidth : F)) (hv : 0 < a.vx) (n : Nat) :
    ((advance config (0, 0))^[n + 1] a).vx =
      (-config.particleVelocityFactor) ^ (n + 1) * a.vx := by
  have hmove : (config.winWidth : F) <
      a.position.X + (a.vx + 0) * config.particleVelocityFactor := by
    rw [add_zero, hx]
    exact lt_add_of_pos_right _ (mul_pos hv hk0)
  have hvx : (advance config (0, 0) a).vx = -config.particleVelocityFactor * a.vx := by
    rw [advance_vx, if_pos (Or.inr hmove)]
    ring
  have hJ : (config.winWidth : F) < (advance config (0, 0) a).position.X ∧
      0 ≤ (advance config (0, 0) a).position.X - (config.winWidth : F) +
        (advance config (0, 0) a).vx := by
    constructor
    · rw [advance_position]
      exact hmove
    · rw [hvx, advance_position, hx]
      simp only []
      linarith
  rw [Function.iterate_succ_apply, advance_iterate_beyond_width config hk0 hk1 n _ hJ, hvx,
    pow_succ]
  ring

/-- Claim C10, amended. Gravity `0`, a positive velocity factor, a non-empty
source group and a target group of the same length `n`, a source particle that
starts the pass at `position.X = winWidth` with `vx > 0`.  In floating-point
arithmetic with a rounding that fixes the width, the pass returns with
`vx = (-1) ^ B * s`, where `s ≥ 0` is the velocity damped `n` times and `B`
counts the sub-steps of the particle that ended below `0` or above the width:
`vx < 0` exactly when `B` is odd and `s > 0`; and with one particle in the
group, `vx < 0` whenever the particle is returned beyond the width.  In exact
arithmetic with a velocity factor below `1`, the pass returns with
`vx * (-particleVelocityFactor) ^ n`, which is negative exactly when `n` is
odd. -/
theorem C10_bounce_at_width_reversals (rnd sqrt : F → F) (hrnd : IsRounding rnd)
    (config : Config F) (hk : 0 < config.particleVelocityFactor)
    (hfix : rnd (config.winWidth : F) = (config.winWidth : F))
    (gOne gTwo : ParticleGroup) (hlen : gTwo.len = gOne.len)
    (i : Nat) (hi : i < gOne.len) (mem : Memory F)
    (hx : (mem (gOne.ptr + i)).position.X = (config.winWidth : F))
    (hv : 0 < (mem (gOne.ptr + i)).vx) :
    (∃ r : Memory F,
      ParticleGroupsUpdateRounded rnd sqrt gOne gTwo 0 config mem = some r ∧
      (r (gOne.ptr + i)).vx =
        (-1) ^ reversals rnd config gOne.len (mem (gOne.ptr + i)) *
          (damp rnd config)^[gOne.len] (mem (gOne.ptr + i)).vx ∧
      0 ≤ (damp rnd config)^[gOne.len] (mem (gOne.ptr + i)).vx ∧
      ((r (gOne.ptr + i)).vx < 0 ↔
        Odd (reversals rnd config gOne.len (mem (gOne.ptr + i))) ∧
          0 < (damp rnd config)^[gOne.len] (mem (gOne.ptr + i)).vx) ∧
      (gOne.len = 1 → (config.winWidth : F) < (r (gOne.ptr + i)).position.X →
        (r (gOne.ptr + i)).vx < 0)) ∧
    (config.particleVelocityFactor < 1 →
      ∃ r : Memory F,
        ParticleGroupsUpdate sqrt gOne gTwo 0 config mem = some r ∧
        (r (gOne.ptr + i)).vx =
          (-config.particleVelocityFactor) ^ gOne.len * (mem (gOne.ptr + i)).vx ∧
        ((r (gOne.ptr + i)).vx < 0 ↔ Odd gOne.len)) := by
  have hin : gOne.ptr ≤ gOne.ptr + i ∧ gOne.ptr + i < gOne.ptr + gOne.len :=
    ⟨by omega, by omega⟩
  have hs : 0 ≤ (damp rnd config)^[gOne.len] (mem (gOne.ptr + i)).vx :=
    damp_iterate_nonneg rnd hrnd config hk gOne.len _ hv.le
  constructor
  · refine ⟨_, ParticleGroupsUpdateRounded_gravity_zero rnd sqrt hrnd config gOne gTwo
      (by omega) mem, ?_, hs, ?_, ?_⟩
    · rw [if_pos hin, advanceRounded_iterate_vx rnd hrnd]
    · rw [if_pos hin, advanceRounded_iterate_vx rnd hrnd]
      rcases Nat.even_or_odd (reversals rnd config gOne.len (mem (gOne.ptr + i))) with h | h
      · rw [h.neg_one_pow, one_mul]
        constructor
        · intro hneg
          exact absurd hneg (not_lt.mpr hs)
        · rintro ⟨hodd, _⟩
          exact absurd h (Nat.not_even_iff_odd.mpr hodd)
      · rw [h.neg_one_pow, neg_one_mul, neg_lt_zero]
        exact ⟨fun hpos => ⟨h, hpos⟩, fun hpos => hpos.2⟩
    · intro hone hbeyond
      rw [if_pos hin, hone, Function.iterate_one] at hbeyond ⊢
      have hd : 0 ≤ damp rnd config (mem (gOne.ptr + i)).vx :=
        damp_nonneg rnd hrnd config hk _ hv.le
      have hd' : damp rnd config (mem (gOne.ptr + i)).vx ≠ 0 := by
        intro h0
        rw [advanceRounded_position_X, h0, add_zero, hx, hfix] at hbeyond
        exact lt_irrefl _ hbeyond
      rw [advanceRounded_vx, if_pos (Or.inr hbeyond), pow_one, neg_one_mul, neg_lt_zero]
      exact lt_of_le_of_ne hd (Ne.symm hd')
  · intro hk1
    obtain ⟨n, hn⟩ : ∃ n, gOne.len = n + 1 := ⟨gOne.len - 1, by omega⟩
    have hvx : ((advance config (0, 0))^[gOne.len] (mem (gOne.ptr + i))).vx =
        (-config.particleVelocityFactor) ^ gOne.len * (mem (gOne.ptr + i)).vx := by
      rw [hn]
      exact advance_iterate_at_width config hk hk1 _ hx hv n
    refine ⟨_, ParticleGroupsUpdate_noForce sqrt config 0
      (fun a b => accumulate_of_gravity_zero sqrt config a b (0, 0)) gOne gTwo (by omega) mem,
      ?_, ?_⟩
    · rw [if_pos hin, hvx]
    · rw [if_pos hin, hvx, neg_pow]
      have hkn : 0 < config.particleVelocityFactor ^ gOne.len * (mem (gOne.ptr + i)).vx :=
        mul_pos (pow_pos hk _) hv
      rcases Nat.even_or_odd gOne.len with h | h
      · rw [h.neg_one_pow, one_mul]
        constructor
        · intro hneg
          exact absurd hneg (not_lt.mpr hkn.le)
        · intro hodd
          exact absurd h (Nat.not_even_iff_odd.mpr hodd)
      · rw [h.neg_one_pow, neg_one_mul, neg_mul, neg_lt_zero]
        exact ⟨fun _ => h, fun _ => hkn⟩

/-- Witness for the amended C10 in `float64` over the real numbers: groups of
three particles, the first source particle at `x = 800 = winWidth` with
`vx = 1`, velocity factor `1/2`. -/
theorem C10_bounce_at_width_reversals_witness :
    (∃ r : Memory ℝ,
      ParticleGroupsUpdateRounded round64 Real.sqrt ⟨0, 3⟩ ⟨3, 3⟩ 0 (configWith ℝ (1 / 2) 75)
        (memoryOf [particleAt Red 800 0 1 0, particleAt Red 400 200 0 0,
          particleAt Red 10 10 0 0] (particleAt Yellow 0 0 0 0)) = some r ∧
      (r (0 + 0)).vx =
        (-1) ^ reversals round64 (configWith ℝ (1 / 2) 75) 3
            (memoryOf [particleAt Red (800 : ℝ) 0 1 0, particleAt Red 400 200 0 0,
              particleAt Red 10 10 0 0] (particleAt Yellow 0 0 0 0) (0 + 0)) *
          (damp round64 (configWith ℝ (1 / 2) 75))^[3]
            (memoryOf [particleAt Red (800 : ℝ) 0 1 0, particleAt Red 400 200 0 0,
              particleAt Red 10 10 0 0] (particleAt Yellow 0 0 0 0) (0 + 0)).vx ∧
      0 ≤ (damp round64 (configWith ℝ (1 / 2) 75))^[3]
        (memoryOf [particleAt Red (800 : ℝ) 0 1 0, particleAt Red 400 200 0 0,
          particleAt Red 10 10 0 0] (particleAt Yellow 0 0 0 0) (0 + 0)).vx ∧
      ((r (0 + 0)).vx < 0 ↔
        Odd (reversals round64 (configWith ℝ (1 / 2) 75) 3
          (memoryOf [particleAt Red (800 : ℝ) 0 1 0, particleAt Red 400 200 0 0,
            particleAt Red 10 10 0 0] (particleAt Yellow 0 0 0 0) (0 + 0))) ∧
          0 < (damp round64 (configWith ℝ (1 / 2) 75))^[3]
            (memoryOf [particleAt Red (800 : ℝ) 0 1 0, particleAt Red 400 200 0 0,
              particleAt Red 10 10 0 0] (particleAt Yellow 0 0 0 0) (0 + 0)).vx) ∧
      ((3 : Nat) = 1 → (((configWith ℝ (1 / 2) 75).winWidth : Int) : ℝ) <
          (r (0 + 0)).position.X → (r (0 + 0)).vx < 0)) ∧
    ((configWith ℝ (1 / 2) 75).particleVelocityFactor < 1 →
      ∃ r : Memory ℝ,
        ParticleGroupsUpdate Real.sqrt ⟨0, 3⟩ ⟨3, 3⟩ 0 (configWith ℝ (1 / 2) 75)
          (memoryOf [particleAt Red 800 0 1 0, particleAt Red 400 200 0 0,
            particleAt Red 10 10 0 0] (particleAt Yellow 0 0 0 0)) = some r ∧
        (r (0 + 0)).vx =
          (-(configWith ℝ (1 / 2) 75).particleVelocityFactor) ^ 3 *
            (memoryOf [particleAt Red (800 : ℝ) 0 1 0, particleAt Red 400 200 0 0,
              particleAt Red 10 10 0 0] (particleAt Yellow 0 0 0 0) (0 + 0)).vx ∧
        ((r (0 + 0)).vx < 0 ↔ Odd 3)) :=
  C10_bounce_at_width_reversals round64 Real.sqrt round64_isRounding (configWith ℝ (1 / 2) 75)
    (by simp [configWith])
    (by
      have h := round64_natCast (F := ℝ) 800 (by norm_num)
      simpa [configWith, mainConfig] using h)
    ⟨0, 3⟩ ⟨3, 3⟩ rfl 0 (by decide)
    (memoryOf [particleAt Red 800 0 1 0, particleAt Red 400 200 0 0,
      particleAt Red 10 10 0 0] (particleAt Yellow 0 0 0 0))
    (by simp [memoryOf, particleAt, configWith, mainConfig])
    (by simp [memoryOf, particleAt])

/-- In `float64` the sum `800 + 2^-61` is `800`: the step is below half of the
spacing `2^-43` of the `float64` numbers around `800`. -/
theorem round64_absorbed : round64 ((800 : ℝ) + 2 ^ (-61 : Int)) = 800 := by
  have hsmall : (0 : ℝ) < 2 ^ (-61 : Int) := zpow_pos (by norm_num) _
  have hlt : (2 : ℝ) ^ (-61 : Int) < 1 := zpow_lt_one_of_neg₀ (by norm_num) (by norm_num)
  have hpos : (0 : ℝ) < 800 + 2 ^ (-61 : Int) := by linarith
  have hlog : Int.log 2 |(800 : ℝ) + 2 ^ (-61 : Int)| = 9 := by
    rw [abs_of_pos hpos]
    apply le_antisymm
    · have h : Int.log 2 ((800 : ℝ) + 2 ^ (-61 : Int)) < 10 := by
        apply (Int.lt_zpow_iff_log_lt (by norm_num) hpos).mp
        norm_num
      omega
    · apply (Int.zpow_le_iff_le_log (by norm_num) hpos).mp
      norm_num
  have hq : (2 : ℝ) ^ ((9 : Int) - 52) = 2 ^ (-43 : Int) := by norm_num
  have hdiv : ((800 : ℝ) + 2 ^ (-61 : Int)) / 2 ^ (-43 : Int) =
      ((7036874417766400 : Int) : ℝ) + 2 ^ (-18 : Int) := by
    norm_num
  have h18 : (0 : ℝ) < 2 ^ (-18 : Int) := zpow_pos (by norm_num) _
  have h18' : (2 : ℝ) ^ (-18 : Int) < 1 / 2 := by
    have : (2 : ℝ) ^ (-18 : Int) < 2 ^ (-1 : Int) :=
      zpow_lt_zpow_right₀ (by norm_num) (by norm_num)
    simpa using this
  have hfl : ⌊((7036874417766400 : Int) : ℝ) + 2 ^ (-18 : Int)⌋ = 7036874417766400 := by
    apply Int.floor_eq_iff.mpr
    exact ⟨le_add_of_nonneg_right h18.le, add_lt_add_left (lt_trans h18' (by norm_num)) _⟩
  have hround : roundHalfEven (((7036874417766400 : Int) : ℝ) + 2 ^ (-18 : Int)) =
      7036874417766400 := by
    unfold roundHalfEven
    rw [hfl, if_pos (by linarith)]
  unfold round64
  simp only []
  rw [if_neg (ne_of_gt hpos), hlog, max_eq_left (by norm_num), hq, hdiv, hround, zpow_neg]
  norm_num

/-- In `float64` a particle at `x = 800 = winWidth` with `vx = 2^-60 > 0` and
velocity factor `1/2` is not moved by its sub-step, is not bounced, and keeps
a positive x-velocity: a pass over groups of one particle returns it at
`x = 800` with `vx = 2^-61`. -/
theorem ParticleGroupsUpdateRounded_absorbed :
    ∃ r : Memory ℝ,
      ParticleGroupsUpdateRounded round64 Real.sqrt ⟨0, 1⟩ ⟨1, 1⟩ 0 (configWith ℝ (1 / 2) 75)
        (memoryOf [particleAt Red 800 0 (2 ^ (-60 : Int)) 0] (particleAt Yellow 0 0 0 0)) =
          some r ∧
      (r 0).position.X = 800 ∧ (r 0).vx = 2 ^ (-61 : Int) := by
  have hd : damp round64 (configWith ℝ (1 / 2) 75) ((2 : ℝ) ^ (-60 : Int)) = 2 ^ (-61 : Int) := by
    have h61 : (2 : ℝ) ^ (-60 : Int) * (1 / 2) = 2 ^ (-61 : Int) := by
      rw [one_div, ← zpow_neg_one, ← zpow_add₀ (by norm_num : (2 : ℝ) ≠ 0)]
      norm_num
    simp only [damp, configWith, add_zero]
    rw [round64_two_zpow (-60) (by norm_num), h61, round64_two_zpow (-61) (by norm_num)]
  have hX : (advanceRounded round64 (configWith ℝ (1 / 2) 75) (0, 0)
      (particleAt Red 800 0 (2 ^ (-60 : Int)) 0)).position.X = 800 := by
    rw [advanceRounded_position_X]
    simp only [particleAt]
    rw [hd, round64_absorbed]
  have hvx : (advanceRounded round64 (configWith ℝ (1 / 2) 75) (0, 0)
      (particleAt Red 800 0 (2 ^ (-60 : Int)) 0)).vx = 2 ^ (-61 : Int) := by
    rw [advanceRounded_vx, hX]
    simp only [particleAt]
    rw [hd, if_neg (by simp [configWith, mainConfig]), pow_zero, one_mul]
  exact ⟨_, ParticleGroupsUpdateRounded_gravity_zero round64 Real.sqrt round64_isRounding
    (configWith ℝ (1 / 2) 75) ⟨0, 1⟩ ⟨1, 1⟩ (le_refl 1) _, hX, hvx⟩

end BounceRounded

end ParticleLife
